import Mathlib

/-!
Verification of the PDF compressor's core worker
(`pdfCompression.worker` — the enhanced variant served from the app's
public folder, whose stages are `removeMetadata`,
`optimizeContentStreams`, `processImages`, `optimizeDocumentStructure`
and `savePdfWithOptions`).

The worker mutates a document object graph supplied by pdf-lib.  We give
a shallow embedding: the indirect-object arena, the trailer entries and
the page list become a `Graph` record; pdf-lib dictionaries become
association lists; the in-place mutations of the worker become pure
state-passing functions; every JavaScript statement that can throw a
`TypeError` on a malformed node (calling `.has` on `undefined`, reading
`.dict` of a non-dictionary object, …) becomes an `Except Unit` failure,
and the worker's `try { … } catch { console.warn }` blocks become
`recover`.
-/

namespace PDFWorker

/-- Association-list lookup, first binding wins.  This models both
pdf-lib's `PDFDict.get`/`PDFDict.has` and the indirect-object
`context.lookup`. -/
def alookup {α β : Type} [DecidableEq α] : List (α × β) → α → Option β
  | [], _ => none
  | (a, b) :: t, k => if a = k then some b else alookup t k

/-- Association-list removal of every binding of a key; models
`PDFDict.delete`. -/
def adelete {α β : Type} [DecidableEq α] : List (α × β) → α → List (α × β)
  | [], _ => []
  | (a, b) :: t, k => if a = k then adelete t k else (a, b) :: adelete t k

/-- Association-list update of the first binding of a key (the key must
already be present; no binding is created).  Models overwriting the
value stored under an existing dictionary key. -/
def aset {α β : Type} [DecidableEq α] : List (α × β) → α → β → List (α × β)
  | [], _, _ => []
  | (a, b) :: t, k, v => if a = k then (a, v) :: t else (a, b) :: aset t k v

/-- A PDF object value, after pdf-lib has parsed the byte stream: the
tagged variant of scalars, names, direct dictionaries, direct arrays and
indirect references.  Streams are represented by their dictionaries (the
byte payload is opaque to the worker, which never touches it). -/
inductive PDFValue : Type where
  | null : PDFValue
  | bool (b : Bool) : PDFValue
  | num (q : ℚ) : PDFValue
  | name (s : String) : PDFValue
  | str (s : String) : PDFValue
  | ref (id : ℕ) : PDFValue
  | dict (entries : List (String × PDFValue)) : PDFValue
  | arr (elems : List PDFValue) : PDFValue

/-- A direct dictionary body: what a resolved `PDFDict` holds. -/
abbrev PDFDict := List (String × PDFValue)

/-- Whether a value is an indirect reference — `v instanceof PDFLib.PDFRef`. -/
def PDFValue.isRef : PDFValue → Bool
  | .ref _ => true
  | _ => false

/-- The object number of a value when it is an indirect reference
(`v instanceof PDFLib.PDFRef` guards in the source), `none` otherwise. -/
def refId : PDFValue → Option ℕ
  | .ref i => some i
  | _ => none

/-- JavaScript `v < n` where `v` was fetched from a dictionary: pdf-lib
numbers coerce to their numeric value (via `toString`), every other
object coerces to `NaN`, and `NaN < n` is `false`. -/
def pdfLt (v : PDFValue) (n : ℚ) : Bool :=
  match v with
  | .num q => decide (q < n)
  | _ => false

/-- JavaScript `v > n` for a dictionary value, same coercion rule as `pdfLt`. -/
def pdfGt (v : PDFValue) (n : ℚ) : Bool :=
  match v with
  | .num q => decide (n < q)
  | _ => false

/-- The three compression presets of the worker options. -/
inductive CompressionLevel : Type where
  | low : CompressionLevel
  | medium : CompressionLevel
  | high : CompressionLevel
deriving DecidableEq

/-- The worker request options: `{ quality, compressionLevel, preserveQuality }`. -/
structure Options : Type where
  quality : ℕ
  compressionLevel : CompressionLevel
  preserveQuality : Bool

/-- The downsample-factor computation of `processImageXObject`
(lines 289–311 of the worker): a base factor from the compression level
and quality, times `0.8` for images over 1000 pixels in either
dimension, times `0.7` for high compression at quality below 30.
`width` and `height` are the raw dictionary values. -/
def downsampleFactor (width height : PDFValue) (options : Options) : ℚ :=
  let f : ℚ :=
    match options.compressionLevel with
    | .low => if options.quality > 80 then 1 else 0.9
    | .medium => if options.quality > 60 then 0.8 else 0.7
    | .high => if options.quality > 40 then 0.6 else 0.5
  let f := if pdfGt width 1000 || pdfGt height 1000 then f * 0.8 else f
  let f :=
    if options.compressionLevel = .high && decide (options.quality < 30) then f * 0.7
    else f
  f

/-- The body of `processImageXObject`: return early when the dictionary
lacks `Width` or `Height`, or when either dimension is below 100;
otherwise compute the downsample factor.  pdf-lib cannot rewrite the
image payload, so the source computes the factor, runs an empty
placeholder branch for `JPXDecode` at high compression, and leaves the
object exactly as it was; the embedding therefore returns the input
dictionary on every path. -/
def processImageXObject (imageObj : PDFDict) (options : Options) : PDFDict :=
  if !(alookup imageObj "Width").isSome || !(alookup imageObj "Height").isSome then
    imageObj
  else
    let width := (alookup imageObj "Width").getD .null
    let height := (alookup imageObj "Height").getD .null
    if pdfLt width 100 || pdfLt height 100 then imageObj
    else
      let _factor := downsampleFactor width height options
      -- `if (filter === JPXDecode && level === high) { /* placeholder */ }`
      imageObj

/-- The in-memory document: the arena of indirect objects keyed by
object number (`pdfDoc.context`), the trailer's `Root` and `Info`
references (`pdfDoc.context.trailerInfo`), and the list of page object
references returned by `pdfDoc.getPages()` (each page's `.ref`). -/
structure Graph : Type where
  objects : List (ℕ × PDFValue)
  root : Option ℕ
  info : Option ℕ
  pageRefs : List ℕ

/-- Resolve an indirect reference: `pdfDoc.context.lookup(ref)`. -/
def lookupObj (g : Graph) (i : ℕ) : Option PDFValue :=
  alookup g.objects i

/-- Overwrite the object stored at an object number (the pure rendering
of mutating a resolved pdf-lib object in place). -/
def setObj (g : Graph) (i : ℕ) (v : PDFValue) : Graph :=
  { g with objects := aset g.objects i v }

/-- The dictionary body stored at object number `i`, when object `i`
resolves to a dictionary.  A `none` result is exactly the situation in
which the worker's next `.has` access throws. -/
def dictAt (g : Graph) (i : ℕ) : Option PDFDict :=
  match lookupObj g i with
  | some (.dict d) => some d
  | _ => none

/-- The value under key `k` of the dictionary stored at object `i`
(`none` when the object is missing, not a dictionary, or lacks the key). -/
def keyAt (g : Graph) (i : ℕ) (k : String) : Option PDFValue :=
  match lookupObj g i with
  | some (.dict d) => alookup d k
  | _ => none

/-- Whether the object stored at `i` is (present and) a dictionary. -/
def nodeIsDict (g : Graph) (i : ℕ) : Bool :=
  match lookupObj g i with
  | some (.dict _) => true
  | _ => false

/-- The JavaScript `if (node.has(key)) node.delete(key)` applied to the
object stored at number `i`: a `TypeError` (modelled as `Except.error`)
when the resolved object is missing or is not a dictionary, and
otherwise the guarded deletion — in particular, deleting an absent key
performs no write at all. -/
def delKeyAtE (g : Graph) (i : ℕ) (k : String) : Except Unit Graph :=
  match lookupObj g i with
  | some (.dict d) =>
      if (alookup d k).isSome then .ok (setObj g i (.dict (adelete d k)))
      else .ok g
  | _ => .error ()

/-- Guarded deletion inside an already-resolved dictionary body:
`if (dict.has(key)) dict.delete(key)`. -/
def delIfPresent (d : PDFDict) (k : String) : PDFDict :=
  if (alookup d k).isSome then adelete d k else d

/-- Reading `trailerInfo.Root` and dereferencing it: when the trailer has
no root, `context.lookup(undefined)` yields `undefined` and the first
`.has` access on it throws. -/
def requireRoot (g : Graph) : Except Unit ℕ :=
  match g.root with
  | some r => .ok r
  | none => .error ()

/-- Sequential guarded deletions of a list of keys from the object at `i`
(the `for (const entry of unnecessaryEntries)` loops of the worker). -/
def delKeysAt (i : ℕ) : Graph → List String → Except Unit Graph
  | g, [] => .ok g
  | g, k :: ks =>
    match delKeyAtE g i k with
    | .ok g' => delKeysAt i g' ks
    | .error e => .error e

/-- Guarded deletion of one key from every listed page object (the
`for` loops over `pdfDoc.getPages()`). -/
def delKeyOnPages (k : String) : Graph → List ℕ → Except Unit Graph
  | g, [] => .ok g
  | g, p :: ps =>
    match delKeyAtE g p k with
    | .ok g' => delKeyOnPages k g' ps
    | .error e => .error e

/-- The catalog entries stripped unconditionally at the end of
`removeMetadata` (its `unnecessaryEntries` array). -/
def unnecessaryEntries : List String :=
  ["PageLabels", "Names", "Dests", "ViewerPreferences",
   "PageLayout", "PageMode", "Threads", "OpenAction"]

/-- The body of `removeMetadata` (worker lines 99–150): resolve the
catalog, strip `Metadata`, clear the trailer `Info` reference, strip
`MarkInfo` and `Outlines`, strip `Thumb` from every page, then strip the
`unnecessaryEntries` from the catalog.  Any `TypeError` on a malformed
node aborts the body; the stage wrapper catches it. -/
def removeMetadataBody (g : Graph) : Except Unit Graph :=
  match requireRoot g with
  | .error e => .error e
  | .ok rid =>
    match delKeyAtE g rid "Metadata" with
    | .error e => .error e
    | .ok g1 =>
      let g2 : Graph := { g1 with info := none }
      match delKeyAtE g2 rid "MarkInfo" with
      | .error e => .error e
      | .ok g3 =>
        match delKeyAtE g3 rid "Outlines" with
        | .error e => .error e
        | .ok g4 =>
          match delKeyOnPages "Thumb" g4 g4.pageRefs with
          | .error e => .error e
          | .ok g5 => delKeysAt rid g5 unnecessaryEntries

/-- The page-local entries `optimizeContentStreams` strips at high
compression (its `pageEntriesToRemove` array). -/
def pageEntriesToRemove : List String :=
  ["Dur", "Trans", "AA", "StructParents", "PZ", "SeparationInfo",
   "Group", "Tabs", "TemplateInstantiated", "PresSteps", "UserUnit"]

/-- The in-dictionary edits `optimizeContentStreams` performs on one
page dictionary: at high compression, drop `Annots` (when quality is not
preserved and the entry exists) and then the `pageEntriesToRemove`; at
other levels the dictionary is untouched. -/
def csPagePrune (options : Options) (pd : PDFDict) : PDFDict :=
  if options.compressionLevel = .high then
    pageEntriesToRemove.foldl (fun d k => delIfPresent d k)
      (if !options.preserveQuality && (alookup pd "Annots").isSome then
        adelete pd "Annots"
      else pd)
  else pd

/-- One page of `optimizeContentStreams` (worker lines 161–193): the page
dictionary edits of `csPagePrune`; then, when the page's `Resources`
entry is an indirect reference, run `optimizeResourcesDictionary` on its
target, which at high compression without quality preservation strips
`ProcSet` — throwing (`resources.has` on `undefined`) when the reference
does not resolve to a dictionary. -/
def contentStreamPage (options : Options) (g : Graph) (pr : ℕ) : Except Unit Graph :=
  match dictAt g pr with
  | some pd =>
    let pd := csPagePrune options pd
    let g := setObj g pr (.dict pd)
    match (alookup pd "Resources").bind refId with
    | some resId =>
      if options.compressionLevel = .high && !options.preserveQuality then
        match dictAt g resId with
        | some rd =>
          if (alookup rd "ProcSet").isSome then
            .ok (setObj g resId (.dict (adelete rd "ProcSet")))
          else .ok g
        | none => .error ()
      else .ok g
    | none => .ok g
  | none => .error ()

/-- Fold of `contentStreamPage` over the pages. -/
def contentStreamPages (options : Options) : Graph → List ℕ → Except Unit Graph
  | g, [] => .ok g
  | g, p :: ps =>
    match contentStreamPage options g p with
    | .ok g' => contentStreamPages options g' ps
    | .error e => .error e

/-- The body of `optimizeContentStreams` (worker lines 157–198). -/
def optimizeContentStreamsBody (g : Graph) (options : Options) : Except Unit Graph :=
  contentStreamPages options g g.pageRefs

/-- The check `obj.has(Subtype) && obj.get(Subtype) === PDFName.of('Image')`. -/
def isImageSubtype (ov : Option PDFValue) : Bool :=
  match ov with
  | some (.name s) => s = "Image"
  | _ => false

/-- One XObject entry of `processImages` (worker lines 249–261): skip
non-reference entries, resolve the rest (a dangling reference throws on
the `Subtype` access), and hand image subtypes to `processImageXObject`,
writing its (unchanged) dictionary back. -/
def processImageEntry (options : Options) (g : Graph) (e : String × PDFValue) :
    Except Unit Graph :=
  match refId e.2 with
  | some objId =>
    match dictAt g objId with
    | some od =>
      if isImageSubtype (alookup od "Subtype") then
        .ok (setObj g objId (.dict (processImageXObject od options)))
      else .ok g
    | none => .error ()
  | none => .ok g

/-- Fold of `processImageEntry` over an XObject dictionary body. -/
def processImageEntries (options : Options) : Graph → List (String × PDFValue) → Except Unit Graph
  | g, [] => .ok g
  | g, e :: es =>
    match processImageEntry options g e with
    | .ok g' => processImageEntries options g' es
    | .error err => .error err

/-- One page of `processImages` (worker lines 228–262): `continue` when
the page has no `Resources`, when `Resources` is not an indirect
reference, when the resolved resources have no `XObject`, or when
`XObject` is not an indirect reference; throw when a reference fails to
resolve to a dictionary; otherwise walk the XObject entries. -/
def processImagesPage (options : Options) (g : Graph) (pr : ℕ) : Except Unit Graph :=
  match dictAt g pr with
  | some pd =>
    match (alookup pd "Resources").bind refId with
    | some resId =>
      match dictAt g resId with
      | some rd =>
        match (alookup rd "XObject").bind refId with
        | some xId =>
          match dictAt g xId with
          | some xd => processImageEntries options g xd
          | none => .error ()
        | none => .ok g
      | none => .error ()
    | none => .ok g
  | none => .error ()

/-- Fold of `processImagesPage` over the pages. -/
def processImagesPages (options : Options) : Graph → List ℕ → Except Unit Graph
  | g, [] => .ok g
  | g, p :: ps =>
    match processImagesPage options g p with
    | .ok g' => processImagesPages options g' ps
    | .error e => .error e

/-- The body of `processImages` (worker lines 222–267). -/
def processImagesBody (g : Graph) (options : Options) : Except Unit Graph :=
  processImagesPages options g g.pageRefs

/-- The dictionary body of a value when it is a direct dictionary — the
source's `namesDict instanceof PDFLib.PDFDict` guard. -/
def asDict : PDFValue → Option PDFDict
  | .dict d => some d
  | _ => none

/-- The embedded-files removal of `optimizeDocumentStructure`: when the
catalog's `Names` entry is a direct dictionary holding `EmbeddedFiles`,
delete that inner entry. -/
def namesPrune (cd : PDFDict) : PDFDict :=
  match (alookup cd "Names").bind asDict with
  | some nd =>
    if (alookup nd "EmbeddedFiles").isSome then
      aset cd "Names" (.dict (adelete nd "EmbeddedFiles"))
    else cd
  | none => cd

/-- The catalog edits of `optimizeDocumentStructure`: at high
compression strip `StructTreeRoot` and then `OCProperties`; then the
embedded-files removal of `namesPrune`. -/
def structCatalogPrune (options : Options) (cd : PDFDict) : PDFDict :=
  namesPrune
    (if options.compressionLevel = .high then
      delIfPresent (delIfPresent cd "StructTreeRoot") "OCProperties"
    else cd)

/-- The body of `optimizeDocumentStructure` (worker lines 334–368):
resolve the catalog (a failed resolution throws on the first `.has`),
then apply the catalog edits of `structCatalogPrune`. -/
def optimizeDocumentStructureBody (g : Graph) (options : Options) : Except Unit Graph :=
  match requireRoot g with
  | .error e => .error e
  | .ok rid =>
    match dictAt g rid with
    | some cd => .ok (setObj g rid (.dict (structCatalogPrune options cd)))
    | none => .error ()

/-- The `try { … } catch (error) { console.warn(…) }` wrapper around each
interior stage: a failure is swallowed and the stage yields its input. -/
def recover (r : Except Unit Graph) (g : Graph) : Graph :=
  match r with
  | .ok g' => g'
  | .error _ => g

/-- Stage 1, `removeMetadata`, with its local catch. -/
def removeMetadata (g : Graph) : Graph :=
  recover (removeMetadataBody g) g

/-- Stage 2, `optimizeContentStreams`, with its local catch. -/
def optimizeContentStreams (g : Graph) (options : Options) : Graph :=
  recover (optimizeContentStreamsBody g options) g

/-- Stage 3, `processImages`, with its local catch. -/
def processImages (g : Graph) (options : Options) : Graph :=
  recover (processImagesBody g options) g

/-- Stage 4, `optimizeDocumentStructure`, with its local catch. -/
def optimizeDocumentStructure (g : Graph) (options : Options) : Graph :=
  recover (optimizeDocumentStructureBody g options) g

/-- The document graph after the four interior stages, in pipeline
order. -/
def pipelineGraph (g : Graph) (options : Options) : Graph :=
  optimizeDocumentStructure
    (processImages (optimizeContentStreams (removeMetadata g) options) options) options

/-- The three pruning stages of the pipeline composed (the full Pruning
Engine policy; `processImages` performs no pruning). -/
def fullPrune (g : Graph) (options : Options) : Graph :=
  optimizeDocumentStructure (optimizeContentStreams (removeMetadata g) options) options

/-- The three pruning-stage bodies chained without recovery, to speak
about errors raised during a pruning pass. -/
def pruneRun (g : Graph) (options : Options) : Except Unit Graph :=
  match removeMetadataBody g with
  | .error e => .error e
  | .ok g1 =>
    match optimizeContentStreamsBody g1 options with
    | .error e => .error e
    | .ok g2 => optimizeDocumentStructureBody g2 options

/-- The terminal message of one request: the `complete` payload
(original size, compressed size, compression ratio) or the `error`
payload. -/
inductive Outcome : Type where
  | complete (originalSize compressedSize : ℕ) (ratioQ : ℚ) : Outcome
  | error (message : String) : Outcome

/-- Whether a terminal message is the error payload. -/
def Outcome.isError : Outcome → Bool
  | .error _ => true
  | _ => false

/-- Whether an external call failed. -/
def isErrorE {ε α : Type} : Except ε α → Bool
  | .error _ => true
  | _ => false

/-- The reported compression ratio:
`(originalSize - compressedSize) / originalSize`. -/
def compressionRatioQ (originalSize compressedSize : ℕ) : ℚ :=
  ((originalSize : ℚ) - (compressedSize : ℚ)) / (originalSize : ℚ)

/-- The worker error message: `error.message || 'Failed to compress PDF.
Please try again.'`. -/
def errorMessageOf (e : String) : String :=
  if e = "" then "Failed to compress PDF. Please try again." else e

/-- The `onmessage` handler (worker lines 13–78), as a function of the
outcomes of the two external calls: `loadResult` stands for
`file.arrayBuffer()` + `PDFLib.PDFDocument.load`, and `save` for
`pdfDoc.save` + blob packaging (yielding the compressed byte size).  The
result is the list of emitted progress percentages followed by the
terminal message. -/
def compressPipeline (loadResult : Except String Graph) (options : Options)
    (originalSize : ℕ) (save : Graph → Except String ℕ) : List ℕ × Outcome :=
  match loadResult with
  | .error e => ([5], .error (errorMessageOf e))
  | .ok g0 =>
    let g1 := removeMetadata g0
    let g2 := optimizeContentStreams g1 options
    let g3 := processImages g2 options
    let g4 := optimizeDocumentStructure g3 options
    match save g4 with
    | .error e => ([5, 10, 15, 25, 40, 70, 85], .error (errorMessageOf e))
    | .ok compressedSize =>
      ([5, 10, 15, 25, 40, 70, 85, 100],
        .complete originalSize compressedSize (compressionRatioQ originalSize compressedSize))

/-- The structural facts every interior stage preserves: the trailer
root, the page list, which nodes are dictionaries, absence of dictionary
keys (stages only delete keys, never add them), and the exact value of
every `Resources` entry. -/
structure Preserves (g g' : Graph) : Prop where
  root_eq : g'.root = g.root
  pageRefs_eq : g'.pageRefs = g.pageRefs
  dict_eq : ∀ j, nodeIsDict g' j = nodeIsDict g j
  abs_mono : ∀ j k, keyAt g j k = none → keyAt g' j k = none
  res_eq : ∀ j, keyAt g' j "Resources" = keyAt g j "Resources"

/-- The shape condition under which `removeMetadata` runs to completion:
a resolvable dictionary catalog and a dictionary object behind every
page reference. -/
def sane1 (g : Graph) : Prop :=
  ∃ rid, g.root = some rid ∧ nodeIsDict g rid = true ∧
    ∀ p ∈ g.pageRefs, nodeIsDict g p = true

/-- The shape condition under which `optimizeContentStreams` completes
on one page: the page resolves to a dictionary and, when the `ProcSet`
branch is live (high compression without quality preservation), an
indirect `Resources` entry resolves to a dictionary as well. -/
def pageOkCS (o : Options) (g : Graph) (p : ℕ) : Prop :=
  nodeIsDict g p = true ∧
    ((o.compressionLevel = .high ∧ o.preserveQuality = false) →
      ∀ r, keyAt g p "Resources" = some (.ref r) → nodeIsDict g r = true)

/-- Everything `optimizeContentStreams` deletes on one page is already
absent. -/
def pagePrunedCS (o : Options) (g : Graph) (p : ℕ) : Prop :=
  (o.compressionLevel = .high →
    (∀ k ∈ pageEntriesToRemove, keyAt g p k = none) ∧
    (o.preserveQuality = false → keyAt g p "Annots" = none)) ∧
  ((o.compressionLevel = .high ∧ o.preserveQuality = false) →
    ∀ r, keyAt g p "Resources" = some (.ref r) → keyAt g r "ProcSet" = none)

/-- The shape condition under which `optimizeContentStreams` completes. -/
def sane2 (g : Graph) (o : Options) : Prop :=
  ∀ p ∈ g.pageRefs, pageOkCS o g p

/-- The shape condition under which `optimizeDocumentStructure`
completes: a resolvable dictionary catalog. -/
def sane3 (g : Graph) : Prop :=
  ∃ rid, g.root = some rid ∧ nodeIsDict g rid = true

/-- The absences `optimizeDocumentStructure` guarantees at the catalog. -/
def catalogPruned3 (o : Options) (g : Graph) (rid : ℕ) : Prop :=
  (o.compressionLevel = .high →
    keyAt g rid "StructTreeRoot" = none ∧ keyAt g rid "OCProperties" = none) ∧
  (∀ nd, keyAt g rid "Names" = some (.dict nd) → alookup nd "EmbeddedFiles" = none)

/-- A catalog dictionary carrying every entry the pruning policy names. -/
def sampleCatalog : PDFDict :=
  [("Metadata", .ref 10), ("MarkInfo", .dict []), ("Outlines", .ref 11),
   ("PageLabels", .dict []),
   ("Names", .dict [("EmbeddedFiles", .ref 12), ("Dests", .ref 13)]),
   ("ViewerPreferences", .dict []), ("PageLayout", .name "TwoColumnLeft"),
   ("PageMode", .name "UseOutlines"), ("Threads", .arr []), ("OpenAction", .arr []),
   ("StructTreeRoot", .ref 14), ("OCProperties", .dict []), ("Pages", .ref 2)]

/-- A page dictionary with a thumbnail, annotations and indirect resources. -/
def samplePage : PDFDict :=
  [("Type", .name "Page"), ("Thumb", .ref 20), ("Annots", .arr []),
   ("Dur", .num 5), ("Resources", .ref 3), ("Parent", .ref 2)]

/-- A resources dictionary with a `ProcSet` and an indirect XObject map. -/
def sampleResources : PDFDict :=
  [("ProcSet", .arr [.name "PDF"]), ("XObject", .ref 4)]

/-- An XObject map holding one image reference. -/
def sampleXObjects : PDFDict := [("Im0", .ref 5)]

/-- A 2000×1500 DCT-encoded image XObject dictionary. -/
def sampleImage : PDFDict :=
  [("Subtype", .name "Image"), ("Width", .num 2000), ("Height", .num 1500),
   ("Filter", .name "DCTDecode"), ("BitsPerComponent", .num 8)]

/-- A small well-formed document graph exercising every pruning rule. -/
def sampleGraph : Graph :=
  { objects :=
      [(1, .dict sampleCatalog),
       (2, .dict [("Type", .name "Pages"), ("Kids", .arr [.ref 6])]),
       (6, .dict samplePage),
       (3, .dict sampleResources),
       (4, .dict sampleXObjects),
       (5, .dict sampleImage)],
    root := some 1, info := some 9, pageRefs := [6] }

/-- High compression, quality 85, no quality preservation. -/
def sampleOptions : Options := ⟨85, .high, false⟩

/-- Medium compression, quality 70, no quality preservation. -/
def mediumOptions : Options := ⟨70, .medium, false⟩

/-- An image dictionary lacking a `Width` entry. -/
def noWidthImage : PDFDict :=
  [("Subtype", .name "Image"), ("Height", .num 500), ("Filter", .name "DCTDecode")]

/-- A 50×60 image dictionary, below the 100-pixel eligibility bound. -/
def smallImage : PDFDict :=
  [("Subtype", .name "Image"), ("Width", .num 50), ("Height", .num 60)]

/-- A graph whose first page holds its resources inline (a direct
dictionary) and whose second page has indirect resources whose
`XObject` entry is inline. -/
def inlineResGraph : Graph :=
  { objects :=
      [(1, .dict [("Type", .name "Page"),
         ("Resources", .dict [("XObject", .dict [("Im0", .ref 5)])])]),
       (2, .dict [("Type", .name "Page"), ("Resources", .ref 3)]),
       (3, .dict [("XObject", .dict [("Im1", .ref 5)])]),
       (5, .dict sampleImage),
       (7, .dict [("Type", .name "Catalog"), ("Pages", .ref 8)])],
    root := some 7, info := none, pageRefs := [1, 2] }

theorem alookup_adelete_self {α β : Type} [DecidableEq α] (l : List (α × β)) (k : α) :
    alookup (adelete l k) k = none := by
  induction l with
  | nil => rfl
  | cons p t ih =>
    cases p with
    | mk a b =>
      by_cases hk : a = k
      · simp [adelete, hk, ih]
      · simp [adelete, alookup, hk, ih]

theorem alookup_adelete_ne {α β : Type} [DecidableEq α] (l : List (α × β)) (k k' : α)
    (h : k' ≠ k) : alookup (adelete l k) k' = alookup l k' := by
  induction l with
  | nil => rfl
  | cons p t ih =>
    cases p with
    | mk a b =>
      by_cases hk : a = k
      · subst hk
        have hne : ¬ a = k' := fun h2 => h h2.symm
        simp [adelete, alookup, hne, ih]
      · by_cases hk' : a = k'
        · subst hk'
          simp [adelete, alookup, h]
        · simp [adelete, alookup, hk, hk', ih]

theorem adelete_absent {α β : Type} [DecidableEq α] (l : List (α × β)) (k : α)
    (h : alookup l k = none) : adelete l k = l := by
  induction l with
  | nil => rfl
  | cons p t ih =>
    cases p with
    | mk a b =>
      by_cases hk : a = k
      · simp [alookup, hk] at h
      · simp only [alookup, if_neg hk] at h
        simp [adelete, hk, ih h]

theorem adelete_adelete {α β : Type} [DecidableEq α] (l : List (α × β)) (k : α) :
    adelete (adelete l k) k = adelete l k :=
  adelete_absent _ _ (alookup_adelete_self l k)

theorem alookup_aset_self {α β : Type} [DecidableEq α] (l : List (α × β)) (k : α) (v : β) :
    alookup (aset l k v) k = if (alookup l k).isSome then some v else none := by
  induction l with
  | nil => rfl
  | cons p t ih =>
    cases p with
    | mk a b =>
      by_cases hk : a = k
      · simp [aset, alookup, hk]
      · simp [aset, alookup, hk, ih]

theorem alookup_aset_ne {α β : Type} [DecidableEq α] (l : List (α × β)) (k k' : α) (v : β)
    (h : k' ≠ k) : alookup (aset l k v) k' = alookup l k' := by
  induction l with
  | nil => rfl
  | cons p t ih =>
    cases p with
    | mk a b =>
      by_cases hk : a = k
      · subst hk
        have : ¬ a = k' := fun h2 => h h2.symm
        simp [aset, alookup, this]
      · by_cases hk' : a = k'
        · subst hk'
          simp [aset, alookup, hk]
        · simp [aset, alookup, hk, hk', ih]

theorem aset_self {α β : Type} [DecidableEq α] (l : List (α × β)) (k : α) (v : β)
    (h : alookup l k = some v) : aset l k v = l := by
  induction l with
  | nil => simp [alookup] at h
  | cons p t ih =>
    cases p with
    | mk a b =>
      by_cases hk : a = k
      · simp only [alookup, if_pos hk] at h
        cases h
        simp [aset, hk]
      · simp only [alookup, if_neg hk] at h
        simp [aset, hk, ih h]

theorem aset_aset {α β : Type} [DecidableEq α] (l : List (α × β)) (k : α) (v w : β) :
    aset (aset l k v) k w = aset l k w := by
  induction l with
  | nil => rfl
  | cons p t ih =>
    cases p with
    | mk a b =>
      by_cases hk : a = k
      · simp [aset, hk]
      · simp [aset, hk, ih]

theorem processImageXObject_eq (imageObj : PDFDict) (options : Options) :
    processImageXObject imageObj options = imageObj := by
  unfold processImageXObject
  split
  · rfl
  · dsimp only
    split <;> rfl

theorem setObj_root (g : Graph) (i : ℕ) (v : PDFValue) : (setObj g i v).root = g.root := rfl

theorem setObj_info (g : Graph) (i : ℕ) (v : PDFValue) : (setObj g i v).info = g.info := rfl

theorem setObj_pageRefs (g : Graph) (i : ℕ) (v : PDFValue) :
    (setObj g i v).pageRefs = g.pageRefs := rfl

theorem lookupObj_setObj_self (g : Graph) (i : ℕ) (v : PDFValue) :
    lookupObj (setObj g i v) i = if (lookupObj g i).isSome then some v else none :=
  alookup_aset_self g.objects i v

theorem lookupObj_setObj_ne (g : Graph) (i j : ℕ) (v : PDFValue) (h : j ≠ i) :
    lookupObj (setObj g i v) j = lookupObj g j :=
  alookup_aset_ne g.objects i j v h

theorem setObj_self (g : Graph) (i : ℕ) (v : PDFValue) (h : lookupObj g i = some v) :
    setObj g i v = g := by
  cases g with
  | mk o r inf p =>
    simp only [setObj]
    congr 1
    exact aset_self o i v h

theorem Preserves.refl (g : Graph) : Preserves g g :=
  ⟨rfl, rfl, fun _ => rfl, fun _ _ h => h, fun _ => rfl⟩

theorem Preserves.trans {a b c : Graph} (h1 : Preserves a b) (h2 : Preserves b c) :
    Preserves a c :=
  ⟨h2.root_eq.trans h1.root_eq, h2.pageRefs_eq.trans h1.pageRefs_eq,
   fun j => (h2.dict_eq j).trans (h1.dict_eq j),
   fun j k h => h2.abs_mono j k (h1.abs_mono j k h),
   fun j => (h2.res_eq j).trans (h1.res_eq j)⟩

theorem nodeIsDict_setObj_dict (g : Graph) (i : ℕ) (d : PDFDict)
    (hd : lookupObj g i = some (.dict _d0)) (j : ℕ) :
    nodeIsDict (setObj g i (.dict d)) j = nodeIsDict g j := by
  by_cases hji : j = i
  · subst hji
    simp [nodeIsDict, lookupObj_setObj_self, hd]
  · simp [nodeIsDict, lookupObj_setObj_ne g i j _ hji]

theorem keyAt_setObj_dict_self (g : Graph) (i : ℕ) (d0 d : PDFDict)
    (hd : lookupObj g i = some (.dict d0)) (k : String) :
    keyAt (setObj g i (.dict d)) i k = alookup d k := by
  simp [keyAt, lookupObj_setObj_self, hd]

theorem keyAt_setObj_dict_ne (g : Graph) (i j : ℕ) (v : PDFValue) (h : j ≠ i) (k : String) :
    keyAt (setObj g i v) j k = keyAt g j k := by
  simp [keyAt, lookupObj_setObj_ne g i j v h]

theorem nodeIsDict_iff {g : Graph} {i : ℕ} :
    nodeIsDict g i = true ↔ ∃ d, lookupObj g i = some (.dict d) := by
  unfold nodeIsDict
  cases hl : lookupObj g i with
  | none => simp
  | some v => cases v <;> simp

theorem delKeyAtE_eq_of_dict {g : Graph} {i : ℕ} {d : PDFDict} (k : String)
    (hl : lookupObj g i = some (.dict d)) :
    delKeyAtE g i k =
      if (alookup d k).isSome then .ok (setObj g i (.dict (adelete d k))) else .ok g := by
  unfold delKeyAtE
  rw [hl]

theorem delKeyAtE_eq_err {g : Graph} {i : ℕ} (k : String)
    (hnd : nodeIsDict g i = false) : delKeyAtE g i k = .error () := by
  unfold delKeyAtE
  unfold nodeIsDict at hnd
  cases hl : lookupObj g i with
  | none => rfl
  | some v => cases v <;> rw [hl] at hnd <;> simp_all

/-- A `delKeyAtE` success preserves all the stage-invariant structure
(provided the deleted key is not `Resources` — no stage ever deletes a
`Resources` entry), leaves the trailer info unchanged, leaves the key
absent, and changes no other key of any node. -/
theorem delKeyAtE_ok {g g' : Graph} {i : ℕ} {k : String}
    (h : delKeyAtE g i k = .ok g') (hk : k ≠ "Resources") :
    Preserves g g' ∧ g'.info = g.info ∧ keyAt g' i k = none ∧
      (∀ j k', j ≠ i ∨ k' ≠ k → keyAt g' j k' = keyAt g j k') := by
  cases hnd : nodeIsDict g i with
  | false => rw [delKeyAtE_eq_err k hnd] at h; cases h
  | true =>
    obtain ⟨d, hl⟩ := nodeIsDict_iff.mp hnd
    rw [delKeyAtE_eq_of_dict k hl] at h
    by_cases hp : (alookup d k).isSome
    · rw [if_pos hp] at h
      cases h
      have habs : ∀ j k', keyAt (setObj g i (.dict (adelete d k))) j k' =
          if j = i then alookup (adelete d k) k' else keyAt g j k' := by
        intro j k'
        by_cases hji : j = i
        · subst hji
          simp [keyAt_setObj_dict_self g j d _ hl]
        · simp [keyAt_setObj_dict_ne g i j _ hji, hji]
      refine ⟨⟨rfl, rfl, fun j => nodeIsDict_setObj_dict g i _ hl j, ?_, ?_⟩, rfl, ?_, ?_⟩
      · intro j k' hnone
        rw [habs]
        by_cases hji : j = i
        · simp only [if_pos hji]
          subst hji
          by_cases hkk : k' = k
          · subst hkk; exact alookup_adelete_self d k'
          · rw [alookup_adelete_ne d k k' hkk]
            simpa [keyAt, hl] using hnone
        · simpa [if_neg hji] using hnone
      · intro j
        rw [habs]
        by_cases hji : j = i
        · subst hji
          rw [if_pos rfl, alookup_adelete_ne d k _ (Ne.symm hk)]
          simp [keyAt, hl]
        · simp [if_neg hji]
      · rw [habs, if_pos rfl]
        exact alookup_adelete_self d k
      · intro j k' hor
        rw [habs]
        by_cases hji : j = i
        · subst hji
          rw [if_pos rfl]
          have hkk : k' ≠ k := by
            cases hor with
            | inl h2 => exact absurd rfl h2
            | inr h2 => exact h2
          rw [alookup_adelete_ne d k k' hkk]
          simp [keyAt, hl]
        · simp [if_neg hji]
    · rw [if_neg hp] at h
      cases h
      have hn : keyAt g i k = none := by
        simp only [keyAt, hl]
        cases hlk : alookup d k with
        | none => rfl
        | some _ => exact absurd (by simp [hlk]) hp
      exact ⟨Preserves.refl g, rfl, hn, fun _ _ _ => rfl⟩

theorem delKeyAtE_ok_of_dict {g : Graph} {i : ℕ} (k : String)
    (h : nodeIsDict g i = true) : ∃ g', delKeyAtE g i k = .ok g' := by
  obtain ⟨d, hl⟩ := nodeIsDict_iff.mp h
  rw [delKeyAtE_eq_of_dict k hl]
  by_cases hp : (alookup d k).isSome <;> simp [hp]

theorem delKeyAtE_ident {g : Graph} {i : ℕ} {k : String}
    (hd : nodeIsDict g i = true) (ha : keyAt g i k = none) :
    delKeyAtE g i k = .ok g := by
  obtain ⟨d, hl⟩ := nodeIsDict_iff.mp hd
  rw [delKeyAtE_eq_of_dict k hl]
  have : alookup d k = none := by simpa [keyAt, hl] using ha
  simp [this]

theorem delKeyAtE_src_dict {g g' : Graph} {i : ℕ} {k : String}
    (h : delKeyAtE g i k = .ok g') : nodeIsDict g i = true := by
  cases hnd : nodeIsDict g i with
  | true => rfl
  | false => rw [delKeyAtE_eq_err k hnd] at h; cases h

theorem delKeyAtE_dict_eq {g g' : Graph} {i : ℕ} {k : String}
    (h : delKeyAtE g i k = .ok g') : ∀ j, nodeIsDict g' j = nodeIsDict g j := by
  cases hnd : nodeIsDict g i with
  | false => rw [delKeyAtE_eq_err k hnd] at h; cases h
  | true =>
    obtain ⟨d, hl⟩ := nodeIsDict_iff.mp hnd
    rw [delKeyAtE_eq_of_dict k hl] at h
    by_cases hp : (alookup d k).isSome
    · rw [if_pos hp] at h
      cases h
      exact fun j => nodeIsDict_setObj_dict g i _ hl j
    · rw [if_neg hp] at h
      cases h
      exact fun _ => rfl

theorem delKeysAt_ok {i : ℕ} {ks : List String} (hks : ∀ k ∈ ks, k ≠ "Resources") :
    ∀ {g g' : Graph}, delKeysAt i g ks = .ok g' →
      Preserves g g' ∧ g'.info = g.info ∧ ∀ k ∈ ks, keyAt g' i k = none := by
  induction ks with
  | nil =>
    intro g g' h
    cases h
    exact ⟨Preserves.refl _, rfl, by simp⟩
  | cons k ks ih =>
    intro g g' h
    unfold delKeysAt at h
    cases hstep : delKeyAtE g i k with
    | error e => rw [hstep] at h; cases h
    | ok g1 =>
      rw [hstep] at h
      obtain ⟨hp1, hi1, ha1, _⟩ := delKeyAtE_ok hstep (hks k (by simp))
      obtain ⟨hp2, hi2, ha2⟩ := ih (fun k' hk' => hks k' (by simp [hk'])) h
      refine ⟨hp1.trans hp2, hi2.trans hi1, ?_⟩
      intro k' hk'
      rcases List.mem_cons.mp hk' with hk' | hk'
      · subst hk'
        exact hp2.abs_mono i k' ha1
      · exact ha2 k' hk'

theorem delKeysAt_ok_of_dict {i : ℕ} {ks : List String} (hks : ∀ k ∈ ks, k ≠ "Resources") :
    ∀ {g : Graph}, nodeIsDict g i = true → ∃ g', delKeysAt i g ks = .ok g' := by
  induction ks with
  | nil => intro g _; exact ⟨g, rfl⟩
  | cons k ks ih =>
    intro g hd
    obtain ⟨g1, hstep⟩ := delKeyAtE_ok_of_dict k hd
    obtain ⟨hp1, _, _, _⟩ := delKeyAtE_ok hstep (hks k (by simp))
    obtain ⟨g', h⟩ := ih (fun k' hk' => hks k' (by simp [hk'])) ((hp1.dict_eq i).trans hd)
    exact ⟨g', by unfold delKeysAt; rw [hstep]; exact h⟩

theorem delKeysAt_err {i : ℕ} {ks : List String} {g : Graph} (hne : ks ≠ [])
    (hnd : nodeIsDict g i = false) : delKeysAt i g ks = .error () := by
  cases ks with
  | nil => exact absurd rfl hne
  | cons k ks =>
    unfold delKeysAt
    rw [delKeyAtE_eq_err k hnd]

theorem delKeysAt_ident {i : ℕ} {ks : List String} :
    ∀ {g : Graph}, nodeIsDict g i = true → (∀ k ∈ ks, keyAt g i k = none) →
      delKeysAt i g ks = .ok g := by
  induction ks with
  | nil => intro g _ _; rfl
  | cons k ks ih =>
    intro g hd ha
    unfold delKeysAt
    rw [delKeyAtE_ident hd (ha k (by simp))]
    exact ih hd (fun k' hk' => ha k' (by simp [hk']))

theorem delKeyOnPages_ok {k : String} (hk : k ≠ "Resources") :
    ∀ {ps : List ℕ} {g g' : Graph}, delKeyOnPages k g ps = .ok g' →
      Preserves g g' ∧ g'.info = g.info ∧ (∀ p ∈ ps, keyAt g' p k = none) ∧
        (∀ p ∈ ps, nodeIsDict g p = true) := by
  intro ps
  induction ps with
  | nil =>
    intro g g' h
    cases h
    exact ⟨Preserves.refl _, rfl, by simp, by simp⟩
  | cons p ps ih =>
    intro g g' h
    unfold delKeyOnPages at h
    cases hstep : delKeyAtE g p k with
    | error e => rw [hstep] at h; cases h
    | ok g1 =>
      rw [hstep] at h
      obtain ⟨hp1, hi1, ha1, _⟩ := delKeyAtE_ok hstep hk
      obtain ⟨hp2, hi2, ha2, hd2⟩ := ih h
      refine ⟨hp1.trans hp2, hi2.trans hi1, ?_, ?_⟩
      · intro p' hp'
        rcases List.mem_cons.mp hp' with hp' | hp'
        · subst hp'
          exact hp2.abs_mono p' k ha1
        · exact ha2 p' hp'
      · intro p' hp'
        rcases List.mem_cons.mp hp' with hp' | hp'
        · subst hp'
          exact delKeyAtE_src_dict hstep
        · exact (hp1.dict_eq p').symm.trans (hd2 p' hp')

theorem delKeyOnPages_ok_of_dict {k : String} (hk : k ≠ "Resources") :
    ∀ {ps : List ℕ} {g : Graph}, (∀ p ∈ ps, nodeIsDict g p = true) →
      ∃ g', delKeyOnPages k g ps = .ok g' := by
  intro ps
  induction ps with
  | nil => intro g _; exact ⟨g, rfl⟩
  | cons p ps ih =>
    intro g hd
    obtain ⟨g1, hstep⟩ := delKeyAtE_ok_of_dict k (hd p (by simp))
    obtain ⟨hp1, _, _, _⟩ := delKeyAtE_ok hstep hk
    obtain ⟨g', h⟩ := ih (fun p' hp' => ((hp1.dict_eq p').trans (hd p' (by simp [hp']))))
    exact ⟨g', by unfold delKeyOnPages; rw [hstep]; exact h⟩

theorem delKeyOnPages_err {k : String} :
    ∀ {ps : List ℕ} {g : Graph}, (¬ ∀ p ∈ ps, nodeIsDict g p = true) →
      delKeyOnPages k g ps = .error () := by
  intro ps
  induction ps with
  | nil => intro g h; exact absurd (by simp) h
  | cons p ps ih =>
    intro g h
    unfold delKeyOnPages
    cases hd : nodeIsDict g p with
    | false => rw [delKeyAtE_eq_err k hd]
    | true =>
      obtain ⟨g1, hstep⟩ := delKeyAtE_ok_of_dict k hd
      rw [hstep]
      have hkr : ¬ ∀ p' ∈ ps, nodeIsDict g1 p' = true := by
        intro hall
        apply h
        intro p' hp'
        rcases List.mem_cons.mp hp' with hp' | hp'
        · subst hp'; exact hd
        · exact (delKeyAtE_dict_eq hstep p').symm.trans (hall p' hp')
      exact ih hkr

theorem delKeyOnPages_ident {k : String} :
    ∀ {ps : List ℕ} {g : Graph},
      (∀ p ∈ ps, nodeIsDict g p = true ∧ keyAt g p k = none) →
      delKeyOnPages k g ps = .ok g := by
  intro ps
  induction ps with
  | nil => intro g _; rfl
  | cons p ps ih =>
    intro g h
    unfold delKeyOnPages
    obtain ⟨hd, ha⟩ := h p (by simp)
    rw [delKeyAtE_ident hd ha]
    exact ih (fun p' hp' => h p' (by simp [hp']))

theorem graph_info_eta {g : Graph} (h : g.info = none) :
    ({ g with info := none } : Graph) = g := by
  cases g with
  | mk o r inf p =>
    have : inf = none := h
    subst this
    rfl

theorem pres_info_none (g : Graph) : Preserves g ({ g with info := none } : Graph) :=
  ⟨rfl, rfl, fun _ => rfl, fun _ _ h => h, fun _ => rfl⟩

theorem unnecessaryEntries_ne_res : ∀ k ∈ unnecessaryEntries, k ≠ "Resources" := by
  intro k hk
  fin_cases hk <;> simp

theorem removeMetadataBody_post {g g' : Graph} {rid : ℕ} (hr : g.root = some rid)
    (h : removeMetadataBody g = .ok g') :
    Preserves g g' ∧ g'.info = none ∧
      keyAt g' rid "Metadata" = none ∧ keyAt g' rid "MarkInfo" = none ∧
      keyAt g' rid "Outlines" = none ∧
      (∀ k ∈ unnecessaryEntries, keyAt g' rid k = none) ∧
      (∀ p ∈ g.pageRefs, keyAt g' p "Thumb" = none) ∧ sane1 g := by
  unfold removeMetadataBody at h
  have hrr : requireRoot g = .ok rid := by simp [requireRoot, hr]
  rw [hrr] at h
  simp only at h
  cases h1 : delKeyAtE g rid "Metadata" with
  | error e => rw [h1] at h; cases h
  | ok g1 =>
    rw [h1] at h
    simp only at h
    obtain ⟨p1, i1, a1, f1⟩ := delKeyAtE_ok h1 (by simp)
    have p1b : Preserves g ({ g1 with info := none } : Graph) :=
      p1.trans (pres_info_none g1)
    cases h2 : delKeyAtE ({ g1 with info := none } : Graph) rid "MarkInfo" with
    | error e => rw [h2] at h; cases h
    | ok g3 =>
      rw [h2] at h
      simp only at h
      obtain ⟨p2, i2, a2, f2⟩ := delKeyAtE_ok h2 (by simp)
      cases h3 : delKeyAtE g3 rid "Outlines" with
      | error e => rw [h3] at h; cases h
      | ok g4 =>
        rw [h3] at h
        simp only at h
        obtain ⟨p3, i3, a3, f3⟩ := delKeyAtE_ok h3 (by simp)
        cases h4 : delKeyOnPages "Thumb" g4 g4.pageRefs with
        | error e => rw [h4] at h; cases h
        | ok g5 =>
          rw [h4] at h
          simp only at h
          obtain ⟨p4, i4, a4, d4⟩ := delKeyOnPages_ok (by simp) h4
          obtain ⟨p5, i5, a5⟩ := delKeysAt_ok unnecessaryEntries_ne_res h
          have pres : Preserves g g' :=
            p1b.trans (p2.trans (p3.trans (p4.trans p5)))
          have hpages4 : g4.pageRefs = g.pageRefs := by
            rw [p3.pageRefs_eq, p2.pageRefs_eq, p1b.pageRefs_eq]
          have hinfo : g'.info = none := by
            rw [i5, i4, i3, i2]
          refine ⟨pres, hinfo, ?_, ?_, ?_, a5, ?_, ?_⟩
          · exact (p5.abs_mono _ _ (p4.abs_mono _ _ (p3.abs_mono _ _ (p2.abs_mono _ _ a1))))
          · exact (p5.abs_mono _ _ (p4.abs_mono _ _ (p3.abs_mono _ _ a2)))
          · exact (p5.abs_mono _ _ (p4.abs_mono _ _ a3))
          · intro p hp
            exact p5.abs_mono _ _ (a4 p (by rw [hpages4]; exact hp))
          · refine ⟨rid, hr, delKeyAtE_src_dict h1, ?_⟩
            intro p hp
            have := d4 p (by rw [hpages4]; exact hp)
            rw [p3.dict_eq, p2.dict_eq, p1b.dict_eq] at this
            exact this

theorem removeMetadataBody_ok_of_sane1 {g : Graph} (hs : sane1 g) :
    ∃ g', removeMetadataBody g = .ok g' := by
  obtain ⟨rid, hr, hd, hpd⟩ := hs
  unfold removeMetadataBody
  have hrr : requireRoot g = .ok rid := by simp [requireRoot, hr]
  rw [hrr]
  simp only
  obtain ⟨g1, h1⟩ := delKeyAtE_ok_of_dict "Metadata" hd
  rw [h1]
  simp only
  obtain ⟨p1, _, _, _⟩ := delKeyAtE_ok h1 (by simp)
  have p1b : Preserves g ({ g1 with info := none } : Graph) :=
    p1.trans (pres_info_none g1)
  obtain ⟨g3, h2⟩ := delKeyAtE_ok_of_dict "MarkInfo" ((p1b.dict_eq rid).trans hd)
  rw [h2]
  simp only
  obtain ⟨p2, _, _, _⟩ := delKeyAtE_ok h2 (by simp)
  obtain ⟨g4, h3⟩ := delKeyAtE_ok_of_dict "Outlines"
    ((p2.dict_eq rid).trans ((p1b.dict_eq rid).trans hd))
  rw [h3]
  simp only
  obtain ⟨p3, _, _, _⟩ := delKeyAtE_ok h3 (by simp)
  have pres4 : Preserves g g4 := p1b.trans (p2.trans p3)
  have hd4 : ∀ p ∈ g4.pageRefs, nodeIsDict g4 p = true := fun p hp => by
    rw [pres4.dict_eq p]
    exact hpd p (by rw [pres4.pageRefs_eq] at hp; exact hp)
  obtain ⟨g5, h4⟩ := delKeyOnPages_ok_of_dict (k := "Thumb") (by simp) hd4
  rw [h4]
  simp only
  obtain ⟨p4, _, _, _⟩ := delKeyOnPages_ok (by simp) h4
  exact delKeysAt_ok_of_dict unnecessaryEntries_ne_res
    ((p4.dict_eq rid).trans ((pres4.dict_eq rid).trans hd))

theorem removeMetadataBody_err_of_not_sane1 {g : Graph} (hs : ¬ sane1 g) :
    removeMetadataBody g = .error () := by
  unfold removeMetadataBody
  cases hr : g.root with
  | none => simp [requireRoot, hr]
  | some rid =>
    have hrr : requireRoot g = .ok rid := by simp [requireRoot, hr]
    rw [hrr]
    simp only
    cases hd : nodeIsDict g rid with
    | false => rw [delKeyAtE_eq_err _ hd]
    | true =>
      obtain ⟨g1, h1⟩ := delKeyAtE_ok_of_dict "Metadata" hd
      rw [h1]
      simp only
      obtain ⟨p1, _, _, _⟩ := delKeyAtE_ok h1 (by simp)
      have p1b : Preserves g ({ g1 with info := none } : Graph) :=
        p1.trans (pres_info_none g1)
      obtain ⟨g3, h2⟩ := delKeyAtE_ok_of_dict "MarkInfo" ((p1b.dict_eq rid).trans hd)
      rw [h2]
      simp only
      obtain ⟨p2, _, _, _⟩ := delKeyAtE_ok h2 (by simp)
      obtain ⟨g4, h3⟩ := delKeyAtE_ok_of_dict "Outlines"
        ((p2.dict_eq rid).trans ((p1b.dict_eq rid).trans hd))
      rw [h3]
      simp only
      obtain ⟨p3, _, _, _⟩ := delKeyAtE_ok h3 (by simp)
      have pres4 : Preserves g g4 := p1b.trans (p2.trans p3)
      have hbad : ¬ ∀ p ∈ g4.pageRefs, nodeIsDict g4 p = true := by
        intro hall
        apply hs
        refine ⟨rid, hr, hd, ?_⟩
        intro p hp
        have := hall p (by rw [pres4.pageRefs_eq]; exact hp)
        rw [pres4.dict_eq p] at this
        exact this
      rw [delKeyOnPages_err hbad]

theorem removeMetadataBody_ident {g : Graph} {rid : ℕ} (hr : g.root = some rid)
    (hd : nodeIsDict g rid = true)
    (hpd : ∀ p ∈ g.pageRefs, nodeIsDict g p = true)
    (hinfo : g.info = none)
    (h1 : keyAt g rid "Metadata" = none) (h2 : keyAt g rid "MarkInfo" = none)
    (h3 : keyAt g rid "Outlines" = none)
    (h4 : ∀ k ∈ unnecessaryEntries, keyAt g rid k = none)
    (h5 : ∀ p ∈ g.pageRefs, keyAt g p "Thumb" = none) :
    removeMetadataBody g = .ok g := by
  unfold removeMetadataBody
  have hrr : requireRoot g = .ok rid := by simp [requireRoot, hr]
  rw [hrr]
  simp only
  rw [delKeyAtE_ident hd h1]
  simp only
  rw [graph_info_eta hinfo]
  rw [delKeyAtE_ident hd h2]
  simp only
  rw [delKeyAtE_ident hd h3]
  simp only
  rw [delKeyOnPages_ident (fun p hp => ⟨hpd p hp, h5 p hp⟩)]
  simp only
  exact delKeysAt_ident hd h4

theorem alookup_delIfPresent (d : PDFDict) (k0 k : String) :
    alookup (delIfPresent d k0) k = if k = k0 then none else alookup d k := by
  unfold delIfPresent
  by_cases hp : (alookup d k0).isSome
  · rw [if_pos hp]
    by_cases hk : k = k0
    · subst hk
      simp [alookup_adelete_self]
    · simp [hk, alookup_adelete_ne d k0 k hk]
  · rw [if_neg hp]
    by_cases hk : k = k0
    · subst hk
      simp only [if_pos rfl]
      exact (Option.not_isSome_iff_eq_none.mp hp).symm ▸ rfl
    · rw [if_neg hk]

theorem delIfPresent_absent (d : PDFDict) (k : String) (h : alookup d k = none) :
    delIfPresent d k = d := by
  unfold delIfPresent
  simp [h]

theorem alookup_foldl_del (ks : List String) :
    ∀ (d : PDFDict) (k : String),
      alookup (ks.foldl (fun d k => delIfPresent d k) d) k =
        if k ∈ ks then none else alookup d k := by
  induction ks with
  | nil => intro d k; simp
  | cons k0 ks ih =>
    intro d k
    simp only [List.foldl_cons]
    rw [ih, alookup_delIfPresent]
    by_cases hks : k ∈ ks
    · simp [hks]
    · by_cases hk0 : k = k0
      · simp [hks, hk0]
      · simp [hks, hk0]

theorem foldl_del_ident (ks : List String) :
    ∀ (d : PDFDict), (∀ k ∈ ks, alookup d k = none) →
      ks.foldl (fun d k => delIfPresent d k) d = d := by
  induction ks with
  | nil => intro d _; rfl
  | cons k0 ks ih =>
    intro d h
    simp only [List.foldl_cons]
    rw [delIfPresent_absent d k0 (h k0 (by simp))]
    exact ih d (fun k hk => h k (by simp [hk]))

theorem pageEntries_no_annots_res :
    "Annots" ∉ pageEntriesToRemove ∧ "Resources" ∉ pageEntriesToRemove := by
  constructor <;> decide

theorem csPagePrune_sub (o : Options) (pd : PDFDict) (k : String)
    (h : alookup pd k = none) : alookup (csPagePrune o pd) k = none := by
  unfold csPagePrune
  by_cases hh : o.compressionLevel = .high
  · rw [if_pos hh, alookup_foldl_del]
    by_cases hmem : k ∈ pageEntriesToRemove
    · simp [hmem]
    · rw [if_neg hmem]
      by_cases hq : (!o.preserveQuality && (alookup pd "Annots").isSome) = true
      · rw [if_pos hq]
        by_cases hk : k = "Annots"
        · subst hk
          exact alookup_adelete_self pd "Annots"
        · rw [alookup_adelete_ne pd "Annots" k hk]
          exact h
      · rw [if_neg hq]
        exact h
  · rw [if_neg hh]
    exact h

theorem csPagePrune_res (o : Options) (pd : PDFDict) :
    alookup (csPagePrune o pd) "Resources" = alookup pd "Resources" := by
  unfold csPagePrune
  by_cases hh : o.compressionLevel = .high
  · rw [if_pos hh, alookup_foldl_del]
    rw [if_neg pageEntries_no_annots_res.2]
    by_cases hq : (!o.preserveQuality && (alookup pd "Annots").isSome) = true
    · rw [if_pos hq]
      exact alookup_adelete_ne pd "Annots" "Resources" (by simp)
    · rw [if_neg hq]
  · rw [if_neg hh]

theorem csPagePrune_absences (o : Options) (pd : PDFDict)
    (hh : o.compressionLevel = .high) :
    (∀ k ∈ pageEntriesToRemove, alookup (csPagePrune o pd) k = none) ∧
      (o.preserveQuality = false → alookup (csPagePrune o pd) "Annots" = none) := by
  unfold csPagePrune
  rw [if_pos hh]
  constructor
  · intro k hk
    rw [alookup_foldl_del, if_pos hk]
  · intro hq
    rw [alookup_foldl_del, if_neg pageEntries_no_annots_res.1]
    by_cases hs : (alookup pd "Annots").isSome
    · rw [if_pos (by simp [hq, hs])]
      exact alookup_adelete_self pd "Annots"
    · rw [if_neg (by simp [hs])]
      exact Option.not_isSome_iff_eq_none.mp hs

theorem csPagePrune_ident (o : Options) (pd : PDFDict)
    (h : o.compressionLevel = .high →
      (∀ k ∈ pageEntriesToRemove, alookup pd k = none) ∧
      (o.preserveQuality = false → alookup pd "Annots" = none)) :
    csPagePrune o pd = pd := by
  unfold csPagePrune
  by_cases hh : o.compressionLevel = .high
  · rw [if_pos hh]
    obtain ⟨he, ha⟩ := h hh
    have hguard : (!o.preserveQuality && (alookup pd "Annots").isSome) = false := by
      cases hq : o.preserveQuality with
      | true => simp [hq]
      | false => simp [hq, ha hq]
    rw [hguard]
    simp only [Bool.false_eq_true, if_false]
    exact foldl_del_ident pageEntriesToRemove pd he
  · rw [if_neg hh]

theorem pageOkCS_congr {a b : Graph} (hp : Preserves a b) (o : Options) (p : ℕ) :
    pageOkCS o b p ↔ pageOkCS o a p := by
  unfold pageOkCS
  rw [hp.dict_eq p]
  constructor
  · rintro ⟨h1, h2⟩
    refine ⟨h1, fun hc r hres => ?_⟩
    have := h2 hc r (by rw [hp.res_eq p]; exact hres)
    rw [hp.dict_eq r] at this
    exact this
  · rintro ⟨h1, h2⟩
    refine ⟨h1, fun hc r hres => ?_⟩
    rw [hp.res_eq p] at hres
    rw [hp.dict_eq r]
    exact h2 hc r hres

theorem pagePrunedCS_mono {a b : Graph} (hp : Preserves a b) {o : Options} {p : ℕ}
    (h : pagePrunedCS o a p) : pagePrunedCS o b p := by
  obtain ⟨h1, h2⟩ := h
  refine ⟨?_, ?_⟩
  · intro hh
    obtain ⟨he, ha⟩ := h1 hh
    exact ⟨fun k hk => hp.abs_mono _ _ (he k hk), fun hq => hp.abs_mono _ _ (ha hq)⟩
  · intro hc r hres
    rw [hp.res_eq p] at hres
    exact hp.abs_mono _ _ (h2 hc r hres)

theorem setObj_prune_pres {g : Graph} {pr : ℕ} {pd : PDFDict}
    (hl : lookupObj g pr = some (.dict pd)) (o : Options) :
    Preserves g (setObj g pr (.dict (csPagePrune o pd))) := by
  refine ⟨rfl, rfl, fun j => nodeIsDict_setObj_dict g pr _ hl j, ?_, ?_⟩
  · intro j k hn
    by_cases hj : j = pr
    · subst hj
      rw [keyAt_setObj_dict_self g j pd _ hl]
      exact csPagePrune_sub o pd k (by simpa [keyAt, hl] using hn)
    · rw [keyAt_setObj_dict_ne g pr j _ hj]
      exact hn
  · intro j
    by_cases hj : j = pr
    · subst hj
      rw [keyAt_setObj_dict_self g j pd _ hl, csPagePrune_res]
      simp [keyAt, hl]
    · rw [keyAt_setObj_dict_ne g pr j _ hj]

theorem dictAt_eq_some {g : Graph} {i : ℕ} {d : PDFDict} :
    dictAt g i = some d ↔ lookupObj g i = some (.dict d) := by
  unfold dictAt
  cases hl : lookupObj g i with
  | none => simp
  | some v => cases v <;> simp

theorem dictAt_eq_none {g : Graph} {i : ℕ} :
    dictAt g i = none ↔ nodeIsDict g i = false := by
  unfold dictAt nodeIsDict
  cases hl : lookupObj g i with
  | none => simp
  | some v => cases v <;> simp

theorem dictAt_isSome {g : Graph} {i : ℕ} :
    (dictAt g i).isSome = nodeIsDict g i := by
  unfold dictAt nodeIsDict
  cases hl : lookupObj g i with
  | none => simp
  | some v => cases v <;> simp

theorem bind_refId_some {ov : Option PDFValue} {r : ℕ} :
    ov.bind refId = some r ↔ ov = some (.ref r) := by
  cases ov with
  | none => simp
  | some v => cases v <;> simp [refId]

theorem contentStreamPage_eq {o : Options} {g : Graph} {pr : ℕ} {pd : PDFDict}
    (hl : lookupObj g pr = some (.dict pd)) :
    contentStreamPage o g pr =
      match (alookup (csPagePrune o pd) "Resources").bind refId with
      | some resId =>
        if o.compressionLevel = .high && !o.preserveQuality then
          match dictAt (setObj g pr (.dict (csPagePrune o pd))) resId with
          | some rd =>
            if (alookup rd "ProcSet").isSome then
              .ok (setObj (setObj g pr (.dict (csPagePrune o pd))) resId
                    (.dict (adelete rd "ProcSet")))
            else .ok (setObj g pr (.dict (csPagePrune o pd)))
          | none => .error ()
        else .ok (setObj g pr (.dict (csPagePrune o pd)))
      | none => .ok (setObj g pr (.dict (csPagePrune o pd))) := by
  unfold contentStreamPage
  rw [dictAt_eq_some.mpr hl]

theorem contentStreamPage_eq_err {o : Options} {g : Graph} {pr : ℕ}
    (hnd : nodeIsDict g pr = false) : contentStreamPage o g pr = .error () := by
  unfold contentStreamPage
  rw [dictAt_eq_none.mpr hnd]

theorem highNoPQ_true {o : Options}
    (h : o.compressionLevel = .high ∧ o.preserveQuality = false) :
    (o.compressionLevel = .high && !o.preserveQuality) = true := by
  simp [h.1, h.2]

theorem highNoPQ_false {o : Options}
    (h : ¬ (o.compressionLevel = .high ∧ o.preserveQuality = false)) :
    (o.compressionLevel = .high && !o.preserveQuality) = false := by
  by_cases h1 : o.compressionLevel = .high
  · cases h2 : o.preserveQuality with
    | true => simp [h1, h2]
    | false => exact absurd ⟨h1, h2⟩ h
  · simp [h1]

theorem contentStreamPage_post {o : Options} {g g' : Graph} {pr : ℕ}
    (h : contentStreamPage o g pr = .ok g') :
    Preserves g g' ∧ g'.info = g.info ∧ pageOkCS o g pr ∧ pagePrunedCS o g' pr := by
  cases hnd : nodeIsDict g pr with
  | false => rw [contentStreamPage_eq_err hnd] at h; cases h
  | true =>
    obtain ⟨pd, hl⟩ := nodeIsDict_iff.mp hnd
    rw [contentStreamPage_eq hl] at h
    have presW := setObj_prune_pres hl o
    have hkg : ∀ k, keyAt g pr k = alookup pd k := fun k => by simp [keyAt, hl]
    have hkW : ∀ k, keyAt (setObj g pr (.dict (csPagePrune o pd))) pr k
        = alookup (csPagePrune o pd) k :=
      fun k => keyAt_setObj_dict_self g pr pd _ hl k
    cases hres : (alookup (csPagePrune o pd) "Resources").bind refId with
    | none =>
      rw [hres] at h
      simp only at h
      cases h
      refine ⟨presW, rfl, ⟨hnd, ?_⟩, ⟨?_, ?_⟩⟩
      · intro hc r hr
        rw [hkg, ← csPagePrune_res o pd] at hr
        exact absurd hres (by rw [hr]; simp [refId])
      · intro hh
        obtain ⟨he, ha⟩ := csPagePrune_absences o pd hh
        exact ⟨fun k hk => (hkW k).trans (he k hk), fun hq => (hkW "Annots").trans (ha hq)⟩
      · intro hc r hr
        rw [hkW "Resources"] at hr
        exact absurd hres (by rw [hr]; simp [refId])
    | some resId =>
      rw [hres] at h
      simp only at h
      have hrv : keyAt g pr "Resources" = some (.ref resId) := by
        rw [hkg, ← csPagePrune_res o pd]
        exact bind_refId_some.mp hres
      by_cases hcond : o.compressionLevel = .high ∧ o.preserveQuality = false
      · rw [highNoPQ_true hcond] at h
        simp only [if_true] at h
        cases hrd : dictAt (setObj g pr (.dict (csPagePrune o pd))) resId with
        | none => rw [hrd] at h; cases h
        | some rd =>
          rw [hrd] at h
          simp only at h
          have hlrd := dictAt_eq_some.mp hrd
          have hdel : delKeyAtE (setObj g pr (.dict (csPagePrune o pd))) resId "ProcSet"
              = .ok g' := by
            rw [delKeyAtE_eq_of_dict "ProcSet" hlrd]
            exact h
          obtain ⟨p2, i2, a2, f2⟩ := delKeyAtE_ok hdel (by simp)
          have hndr : nodeIsDict g resId = true := by
            rw [← presW.dict_eq resId]
            exact nodeIsDict_iff.mpr ⟨rd, hlrd⟩
          refine ⟨presW.trans p2, i2, ⟨hnd, ?_⟩, ⟨?_, ?_⟩⟩
          · intro hc r hr
            rw [hrv] at hr
            have : resId = r := by simpa using hr
            subst this
            exact hndr
          · intro hh
            obtain ⟨he, ha⟩ := csPagePrune_absences o pd hh
            exact ⟨fun k hk => p2.abs_mono _ _ ((hkW k).trans (he k hk)),
              fun hq => p2.abs_mono _ _ ((hkW "Annots").trans (ha hq))⟩
          · intro hc r hr
            rw [p2.res_eq pr, hkW "Resources", bind_refId_some.mp hres] at hr
            have : resId = r := by simpa using hr
            subst this
            exact a2
      · rw [highNoPQ_false hcond] at h
        simp only [Bool.false_eq_true, if_false] at h
        cases h
        refine ⟨presW, rfl, ⟨hnd, fun hc => absurd hc hcond⟩,
          ⟨?_, fun hc => absurd hc hcond⟩⟩
        intro hh
        obtain ⟨he, ha⟩ := csPagePrune_absences o pd hh
        exact ⟨fun k hk => (hkW k).trans (he k hk), fun hq => (hkW "Annots").trans (ha hq)⟩

theorem contentStreamPage_ok_of {o : Options} {g : Graph} {pr : ℕ}
    (hok : pageOkCS o g pr) : ∃ g', contentStreamPage o g pr = .ok g' := by
  obtain ⟨hnd, hsec⟩ := hok
  obtain ⟨pd, hl⟩ := nodeIsDict_iff.mp hnd
  have presW := setObj_prune_pres hl o
  have hkg : ∀ k, keyAt g pr k = alookup pd k := fun k => by simp [keyAt, hl]
  rw [contentStreamPage_eq hl]
  cases hres : (alookup (csPagePrune o pd) "Resources").bind refId with
  | none => exact ⟨_, rfl⟩
  | some resId =>
    simp only
    by_cases hcond : o.compressionLevel = .high ∧ o.preserveQuality = false
    · rw [highNoPQ_true hcond]
      simp only [if_true]
      have hrv : keyAt g pr "Resources" = some (.ref resId) := by
        rw [hkg, ← csPagePrune_res o pd]
        exact bind_refId_some.mp hres
      have hndr : nodeIsDict g resId = true := hsec hcond resId hrv
      have hndrW : nodeIsDict (setObj g pr (.dict (csPagePrune o pd))) resId = true := by
        rw [presW.dict_eq resId]
        exact hndr
      obtain ⟨rd, hlrd⟩ := nodeIsDict_iff.mp hndrW
      rw [dictAt_eq_some.mpr hlrd]
      simp only
      by_cases hps : (alookup rd "ProcSet").isSome
      · rw [if_pos hps]
        exact ⟨_, rfl⟩
      · rw [if_neg hps]
        exact ⟨_, rfl⟩
    · rw [highNoPQ_false hcond]
      simp only [Bool.false_eq_true, if_false]
      exact ⟨_, rfl⟩

theorem contentStreamPage_err_of {o : Options} {g : Graph} {pr : ℕ}
    (hbad : ¬ pageOkCS o g pr) : contentStreamPage o g pr = .error () := by
  cases hnd : nodeIsDict g pr with
  | false => exact contentStreamPage_eq_err hnd
  | true =>
    obtain ⟨pd, hl⟩ := nodeIsDict_iff.mp hnd
    have presW := setObj_prune_pres hl o
    have hkg : ∀ k, keyAt g pr k = alookup pd k := fun k => by simp [keyAt, hl]
    rw [contentStreamPage_eq hl]
    cases hres : (alookup (csPagePrune o pd) "Resources").bind refId with
    | none =>
      exfalso
      apply hbad
      refine ⟨hnd, fun hc r hr => ?_⟩
      rw [hkg, ← csPagePrune_res o pd] at hr
      exact absurd hres (by rw [hr]; simp [refId])
    | some resId =>
      simp only
      have hrv : keyAt g pr "Resources" = some (.ref resId) := by
        rw [hkg, ← csPagePrune_res o pd]
        exact bind_refId_some.mp hres
      by_cases hcond : o.compressionLevel = .high ∧ o.preserveQuality = false
      · cases hndr : nodeIsDict g resId with
        | true =>
          exfalso
          apply hbad
          refine ⟨hnd, fun hc r hr => ?_⟩
          rw [hrv] at hr
          have : resId = r := by simpa using hr
          subst this
          exact hndr
        | false =>
          rw [highNoPQ_true hcond]
          simp only [if_true]
          have : dictAt (setObj g pr (.dict (csPagePrune o pd))) resId = none := by
            rw [dictAt_eq_none, presW.dict_eq resId]
            exact hndr
          rw [this]
      · exfalso
        exact hbad ⟨hnd, fun hc => absurd hc hcond⟩

theorem contentStreamPage_ident {o : Options} {g : Graph} {pr : ℕ}
    (hok : pageOkCS o g pr) (hpr : pagePrunedCS o g pr) :
    contentStreamPage o g pr = .ok g := by
  obtain ⟨hnd, hsec⟩ := hok
  obtain ⟨hp1, hp2⟩ := hpr
  obtain ⟨pd, hl⟩ := nodeIsDict_iff.mp hnd
  have hkg : ∀ k, keyAt g pr k = alookup pd k := fun k => by simp [keyAt, hl]
  have hid : csPagePrune o pd = pd := by
    apply csPagePrune_ident
    intro hh
    obtain ⟨he, ha⟩ := hp1 hh
    exact ⟨fun k hk => ((hkg k).symm).trans (he k hk),
      fun hq => ((hkg "Annots").symm).trans (ha hq)⟩
  have hgw : setObj g pr (.dict (csPagePrune o pd)) = g := by
    rw [hid]
    exact setObj_self g pr _ hl
  rw [contentStreamPage_eq hl, hgw, hid]
  cases hres : (alookup pd "Resources").bind refId with
  | none => rfl
  | some resId =>
    simp only
    have hrv : keyAt g pr "Resources" = some (.ref resId) := by
      rw [hkg]
      exact bind_refId_some.mp hres
    by_cases hcond : o.compressionLevel = .high ∧ o.preserveQuality = false
    · rw [highNoPQ_true hcond]
      simp only [if_true]
      have hndr : nodeIsDict g resId = true := hsec hcond resId hrv
      obtain ⟨rd, hlrd⟩ := nodeIsDict_iff.mp hndr
      rw [dictAt_eq_some.mpr hlrd]
      simp only
      have hps : alookup rd "ProcSet" = none := by
        have := hp2 hcond resId hrv
        simpa [keyAt, hlrd] using this
      rw [if_neg (by simp [hps])]
    · rw [highNoPQ_false hcond]
      simp only [Bool.false_eq_true, if_false]

theorem contentStreamPages_ok {o : Options} :
    ∀ {ps : List ℕ} {g g' : Graph}, contentStreamPages o g ps = .ok g' →
      Preserves g g' ∧ g'.info = g.info ∧ (∀ p ∈ ps, pageOkCS o g p) ∧
        (∀ p ∈ ps, pagePrunedCS o g' p) := by
  intro ps
  induction ps with
  | nil =>
    intro g g' h
    cases h
    exact ⟨Preserves.refl _, rfl, by simp, by simp⟩
  | cons p ps ih =>
    intro g g' h
    unfold contentStreamPages at h
    cases hstep : contentStreamPage o g p with
    | error e => rw [hstep] at h; cases h
    | ok g1 =>
      rw [hstep] at h
      obtain ⟨p1, i1, hok1, hpr1⟩ := contentStreamPage_post hstep
      obtain ⟨p2, i2, hok2, hpr2⟩ := ih h
      refine ⟨p1.trans p2, i2.trans i1, ?_, ?_⟩
      · intro q hq
        rcases List.mem_cons.mp hq with hq | hq
        · subst hq; exact hok1
        · exact (pageOkCS_congr p1 o q).mp (hok2 q hq)
      · intro q hq
        rcases List.mem_cons.mp hq with hq | hq
        · subst hq; exact pagePrunedCS_mono p2 hpr1
        · exact hpr2 q hq

theorem contentStreamPages_ok_of {o : Options} :
    ∀ {ps : List ℕ} {g : Graph}, (∀ p ∈ ps, pageOkCS o g p) →
      ∃ g', contentStreamPages o g ps = .ok g' := by
  intro ps
  induction ps with
  | nil => intro g _; exact ⟨g, rfl⟩
  | cons p ps ih =>
    intro g h
    obtain ⟨g1, hstep⟩ := contentStreamPage_ok_of (h p (by simp))
    obtain ⟨p1, _, _, _⟩ := contentStreamPage_post hstep
    obtain ⟨g', hrest⟩ := ih (fun q hq => (pageOkCS_congr p1 o q).mpr (h q (by simp [hq])))
    exact ⟨g', by unfold contentStreamPages; rw [hstep]; exact hrest⟩

theorem contentStreamPages_err_of {o : Options} :
    ∀ {ps : List ℕ} {g : Graph}, (¬ ∀ p ∈ ps, pageOkCS o g p) →
      contentStreamPages o g ps = .error () := by
  intro ps
  induction ps with
  | nil => intro g h; exact absurd (by simp) h
  | cons p ps ih =>
    intro g h
    by_cases hp : pageOkCS o g p
    · obtain ⟨g1, hstep⟩ := contentStreamPage_ok_of hp
      obtain ⟨p1, _, _, _⟩ := contentStreamPage_post hstep
      have hbad : ¬ ∀ q ∈ ps, pageOkCS o g1 q := by
        intro hall
        apply h
        intro q hq
        rcases List.mem_cons.mp hq with hq | hq
        · subst hq; exact hp
        · exact (pageOkCS_congr p1 o q).mp (hall q hq)
      unfold contentStreamPages
      rw [hstep]
      exact ih hbad
    · unfold contentStreamPages
      rw [contentStreamPage_err_of hp]

theorem contentStreamPages_ident {o : Options} :
    ∀ {ps : List ℕ} {g : Graph},
      (∀ p ∈ ps, pageOkCS o g p ∧ pagePrunedCS o g p) →
      contentStreamPages o g ps = .ok g := by
  intro ps
  induction ps with
  | nil => intro g _; rfl
  | cons p ps ih =>
    intro g h
    unfold contentStreamPages
    rw [contentStreamPage_ident (h p (by simp)).1 (h p (by simp)).2]
    exact ih (fun q hq => h q (by simp [hq]))

theorem optimizeContentStreamsBody_post {g g' : Graph} {o : Options}
    (h : optimizeContentStreamsBody g o = .ok g') :
    Preserves g g' ∧ g'.info = g.info ∧ sane2 g o ∧
      (∀ p ∈ g.pageRefs, pagePrunedCS o g' p) :=
  contentStreamPages_ok h

theorem optimizeContentStreamsBody_ok_of {g : Graph} {o : Options} (h : sane2 g o) :
    ∃ g', optimizeContentStreamsBody g o = .ok g' :=
  contentStreamPages_ok_of h

theorem optimizeContentStreamsBody_err_of {g : Graph} {o : Options} (h : ¬ sane2 g o) :
    optimizeContentStreamsBody g o = .error () :=
  contentStreamPages_err_of h

theorem optimizeContentStreamsBody_ident {g : Graph} {o : Options}
    (h : ∀ p ∈ g.pageRefs, pageOkCS o g p ∧ pagePrunedCS o g p) :
    optimizeContentStreamsBody g o = .ok g :=
  contentStreamPages_ident h

theorem bind_asDict_some {ov : Option PDFValue} {nd : PDFDict} :
    ov.bind asDict = some nd ↔ ov = some (.dict nd) := by
  cases ov with
  | none => simp
  | some v => cases v <;> simp [asDict]

theorem namesPrune_sub (cd : PDFDict) (k : String) (h : alookup cd k = none) :
    alookup (namesPrune cd) k = none := by
  unfold namesPrune
  cases hn : (alookup cd "Names").bind asDict with
  | none => exact h
  | some nd =>
    simp only
    by_cases hef : (alookup nd "EmbeddedFiles").isSome
    · rw [if_pos hef]
      by_cases hk : k = "Names"
      · subst hk
        rw [bind_asDict_some.mp hn] at h
        cases h
      · rw [alookup_aset_ne cd "Names" k _ hk]
        exact h
    · rw [if_neg hef]
      exact h

theorem namesPrune_ne (cd : PDFDict) (k : String) (hk : k ≠ "Names") :
    alookup (namesPrune cd) k = alookup cd k := by
  unfold namesPrune
  cases hn : (alookup cd "Names").bind asDict with
  | none => rfl
  | some nd =>
    simp only
    by_cases hef : (alookup nd "EmbeddedFiles").isSome
    · rw [if_pos hef]
      exact alookup_aset_ne cd "Names" k _ hk
    · rw [if_neg hef]

theorem namesPrune_post (cd : PDFDict) :
    ∀ nd', alookup (namesPrune cd) "Names" = some (.dict nd') →
      alookup nd' "EmbeddedFiles" = none := by
  intro nd' h
  unfold namesPrune at h
  cases hn : (alookup cd "Names").bind asDict with
  | none =>
    rw [hn] at h
    simp only at h
    exact absurd hn (by rw [h]; simp [asDict])
  | some nd =>
    rw [hn] at h
    simp only at h
    by_cases hef : (alookup nd "EmbeddedFiles").isSome
    · rw [if_pos hef] at h
      rw [alookup_aset_self] at h
      rw [bind_asDict_some.mp hn] at h
      simp only [Option.isSome_some, if_true] at h
      have : PDFValue.dict (adelete nd "EmbeddedFiles") = PDFValue.dict nd' := by
        simpa using h
      have hnd : adelete nd "EmbeddedFiles" = nd' := by
        cases this
        rfl
      rw [← hnd]
      exact alookup_adelete_self nd "EmbeddedFiles"
    · rw [if_neg hef] at h
      rw [bind_asDict_some.mp hn] at h
      have : nd = nd' := by simpa using h
      subst this
      exact Option.not_isSome_iff_eq_none.mp hef

theorem namesPrune_ident (cd : PDFDict)
    (h : ∀ nd, alookup cd "Names" = some (.dict nd) → alookup nd "EmbeddedFiles" = none) :
    namesPrune cd = cd := by
  unfold namesPrune
  cases hn : (alookup cd "Names").bind asDict with
  | none => rfl
  | some nd =>
    simp only
    rw [if_neg]
    rw [h nd (bind_asDict_some.mp hn)]
    simp

theorem structCatalogPrune_sub (o : Options) (cd : PDFDict) (k : String)
    (h : alookup cd k = none) : alookup (structCatalogPrune o cd) k = none := by
  unfold structCatalogPrune
  apply namesPrune_sub
  by_cases hh : o.compressionLevel = .high
  · rw [if_pos hh, alookup_delIfPresent, alookup_delIfPresent]
    by_cases h1 : k = "OCProperties"
    · simp [h1]
    · by_cases h2 : k = "StructTreeRoot" <;> simp [h1, h2, h]
  · rw [if_neg hh]
    exact h

theorem structCatalogPrune_res (o : Options) (cd : PDFDict) :
    alookup (structCatalogPrune o cd) "Resources" = alookup cd "Resources" := by
  unfold structCatalogPrune
  rw [namesPrune_ne _ _ (by simp)]
  by_cases hh : o.compressionLevel = .high
  · rw [if_pos hh, alookup_delIfPresent, alookup_delIfPresent]
    simp
  · rw [if_neg hh]

theorem structCatalogPrune_post (o : Options) (cd : PDFDict) :
    (o.compressionLevel = .high →
      alookup (structCatalogPrune o cd) "StructTreeRoot" = none ∧
      alookup (structCatalogPrune o cd) "OCProperties" = none) ∧
    (∀ nd', alookup (structCatalogPrune o cd) "Names" = some (.dict nd') →
      alookup nd' "EmbeddedFiles" = none) := by
  constructor
  · intro hh
    unfold structCatalogPrune
    constructor
    · rw [namesPrune_ne _ _ (by simp), if_pos hh,
        alookup_delIfPresent, alookup_delIfPresent]
      simp
    · rw [namesPrune_ne _ _ (by simp), if_pos hh, alookup_delIfPresent]
      simp
  · exact fun nd' h => namesPrune_post _ nd' h

theorem structCatalogPrune_ident (o : Options) (cd : PDFDict)
    (h1 : o.compressionLevel = .high →
      alookup cd "StructTreeRoot" = none ∧ alookup cd "OCProperties" = none)
    (h2 : ∀ nd, alookup cd "Names" = some (.dict nd) →
      alookup nd "EmbeddedFiles" = none) :
    structCatalogPrune o cd = cd := by
  unfold structCatalogPrune
  by_cases hh : o.compressionLevel = .high
  · rw [if_pos hh]
    obtain ⟨hs, ho⟩ := h1 hh
    rw [delIfPresent_absent cd _ hs, delIfPresent_absent cd _ ho]
    exact namesPrune_ident cd h2
  · rw [if_neg hh]
    exact namesPrune_ident cd h2

theorem optimizeDocumentStructureBody_post {g g' : Graph} {o : Options} {rid : ℕ}
    (hr : g.root = some rid) (h : optimizeDocumentStructureBody g o = .ok g') :
    Preserves g g' ∧ g'.info = g.info ∧ catalogPruned3 o g' rid ∧
      nodeIsDict g rid = true := by
  unfold optimizeDocumentStructureBody at h
  have hrr : requireRoot g = .ok rid := by simp [requireRoot, hr]
  rw [hrr] at h
  simp only at h
  cases hcd : dictAt g rid with
  | none => rw [hcd] at h; cases h
  | some cd =>
    rw [hcd] at h
    simp only at h
    cases h
    have hl := dictAt_eq_some.mp hcd
    have hkW : ∀ k, keyAt (setObj g rid (.dict (structCatalogPrune o cd))) rid k
        = alookup (structCatalogPrune o cd) k :=
      fun k => keyAt_setObj_dict_self g rid cd _ hl k
    refine ⟨⟨rfl, rfl, fun j => nodeIsDict_setObj_dict g rid _ hl j, ?_, ?_⟩, rfl,
      ⟨?_, ?_⟩, nodeIsDict_iff.mpr ⟨cd, hl⟩⟩
    · intro j k hn
      by_cases hj : j = rid
      · subst hj
        rw [hkW k]
        exact structCatalogPrune_sub o cd k (by simpa [keyAt, hl] using hn)
      · rw [keyAt_setObj_dict_ne g rid j _ hj]
        exact hn
    · intro j
      by_cases hj : j = rid
      · subst hj
        rw [hkW "Resources", structCatalogPrune_res]
        simp [keyAt, hl]
      · rw [keyAt_setObj_dict_ne g rid j _ hj]
    · intro hh
      rw [hkW "StructTreeRoot", hkW "OCProperties"]
      exact (structCatalogPrune_post o cd).1 hh
    · intro nd hnd
      rw [hkW "Names"] at hnd
      exact (structCatalogPrune_post o cd).2 nd hnd

theorem optimizeDocumentStructureBody_ok_of {g : Graph} {o : Options} (hs : sane3 g) :
    ∃ g', optimizeDocumentStructureBody g o = .ok g' := by
  obtain ⟨rid, hr, hd⟩ := hs
  obtain ⟨cd, hl⟩ := nodeIsDict_iff.mp hd
  unfold optimizeDocumentStructureBody
  have hrr : requireRoot g = .ok rid := by simp [requireRoot, hr]
  rw [hrr]
  simp only
  rw [dictAt_eq_some.mpr hl]
  exact ⟨_, rfl⟩

theorem optimizeDocumentStructureBody_err_of {g : Graph} {o : Options} (hs : ¬ sane3 g) :
    optimizeDocumentStructureBody g o = .error () := by
  unfold optimizeDocumentStructureBody
  cases hr : g.root with
  | none => simp [requireRoot, hr]
  | some rid =>
    have hrr : requireRoot g = .ok rid := by simp [requireRoot, hr]
    rw [hrr]
    simp only
    cases hd : nodeIsDict g rid with
    | true => exact absurd ⟨rid, hr, hd⟩ hs
    | false => rw [dictAt_eq_none.mpr hd]

theorem optimizeDocumentStructureBody_ident {g : Graph} {o : Options} {rid : ℕ}
    (hr : g.root = some rid) (hd : nodeIsDict g rid = true)
    (hpr : catalogPruned3 o g rid) :
    optimizeDocumentStructureBody g o = .ok g := by
  obtain ⟨cd, hl⟩ := nodeIsDict_iff.mp hd
  have hkg : ∀ k, keyAt g rid k = alookup cd k := fun k => by simp [keyAt, hl]
  unfold optimizeDocumentStructureBody
  have hrr : requireRoot g = .ok rid := by simp [requireRoot, hr]
  rw [hrr]
  simp only
  rw [dictAt_eq_some.mpr hl]
  simp only
  rw [structCatalogPrune_ident o cd
    (fun hh => ⟨(hkg "StructTreeRoot").symm.trans (hpr.1 hh).1,
      (hkg "OCProperties").symm.trans (hpr.1 hh).2⟩)
    (fun nd hnd => hpr.2 nd ((hkg "Names").trans hnd))]
  rw [setObj_self g rid _ hl]

theorem processImageEntry_ok_eq {o : Options} {g g' : Graph} {e : String × PDFValue}
    (h : processImageEntry o g e = .ok g') : g' = g := by
  unfold processImageEntry at h
  cases hrf : refId e.2 with
  | none => rw [hrf] at h; cases h; rfl
  | some objId =>
    rw [hrf] at h
    simp only at h
    cases hcd : dictAt g objId with
    | none => rw [hcd] at h; cases h
    | some od =>
      rw [hcd] at h
      simp only at h
      by_cases hs : isImageSubtype (alookup od "Subtype") = true
      · rw [if_pos hs] at h
        cases h
        rw [processImageXObject_eq]
        exact setObj_self g objId _ (dictAt_eq_some.mp hcd)
      · rw [if_neg hs] at h
        cases h
        rfl

theorem processImageEntries_ok_eq {o : Options} :
    ∀ {es : List (String × PDFValue)} {g g' : Graph},
      processImageEntries o g es = .ok g' → g' = g := by
  intro es
  induction es with
  | nil => intro g g' h; cases h; rfl
  | cons e es ih =>
    intro g g' h
    unfold processImageEntries at h
    cases hstep : processImageEntry o g e with
    | error err => rw [hstep] at h; cases h
    | ok g1 =>
      rw [hstep] at h
      have : g1 = g := processImageEntry_ok_eq hstep
      subst this
      exact ih h

theorem processImagesPage_ok_eq {o : Options} {g g' : Graph} {pr : ℕ}
    (h : processImagesPage o g pr = .ok g') : g' = g := by
  unfold processImagesPage at h
  cases hpd : dictAt g pr with
  | none => rw [hpd] at h; cases h
  | some pd =>
    rw [hpd] at h
    simp only at h
    cases hres : (alookup pd "Resources").bind refId with
    | none => rw [hres] at h; cases h; rfl
    | some resId =>
      rw [hres] at h
      simp only at h
      cases hrd : dictAt g resId with
      | none => rw [hrd] at h; cases h
      | some rd =>
        rw [hrd] at h
        simp only at h
        cases hx : (alookup rd "XObject").bind refId with
        | none => rw [hx] at h; cases h; rfl
        | some xId =>
          rw [hx] at h
          simp only at h
          cases hxd : dictAt g xId with
          | none => rw [hxd] at h; cases h
          | some xd =>
            rw [hxd] at h
            simp only at h
            exact processImageEntries_ok_eq h

theorem processImagesPages_ok_eq {o : Options} :
    ∀ {ps : List ℕ} {g g' : Graph}, processImagesPages o g ps = .ok g' → g' = g := by
  intro ps
  induction ps with
  | nil => intro g g' h; cases h; rfl
  | cons p ps ih =>
    intro g g' h
    unfold processImagesPages at h
    cases hstep : processImagesPage o g p with
    | error e => rw [hstep] at h; cases h
    | ok g1 =>
      rw [hstep] at h
      have : g1 = g := processImagesPage_ok_eq hstep
      subst this
      exact ih h

/-- `processImages` never changes the graph: `processImageXObject`
computes the downsample factor and leaves every image as it was, and a
stage failure is swallowed. -/
theorem processImages_id (g : Graph) (o : Options) : processImages g o = g := by
  unfold processImages recover
  cases hb : processImagesBody g o with
  | error e => rfl
  | ok g' => exact processImagesPages_ok_eq hb

theorem sane1_congr {a b : Graph} (hp : Preserves a b) : sane1 b ↔ sane1 a := by
  unfold sane1
  rw [hp.root_eq, hp.pageRefs_eq]
  constructor
  · rintro ⟨rid, hr, hd, hpd⟩
    exact ⟨rid, hr, (hp.dict_eq rid).symm.trans hd,
      fun p hpq => (hp.dict_eq p).symm.trans (hpd p hpq)⟩
  · rintro ⟨rid, hr, hd, hpd⟩
    exact ⟨rid, hr, (hp.dict_eq rid).trans hd,
      fun p hpq => (hp.dict_eq p).trans (hpd p hpq)⟩

theorem sane2_congr {a b : Graph} (hp : Preserves a b) (o : Options) :
    sane2 b o ↔ sane2 a o := by
  unfold sane2
  rw [hp.pageRefs_eq]
  exact ⟨fun h p hpq => (pageOkCS_congr hp o p).mp (h p hpq),
    fun h p hpq => (pageOkCS_congr hp o p).mpr (h p hpq)⟩

theorem sane3_congr {a b : Graph} (hp : Preserves a b) : sane3 b ↔ sane3 a := by
  unfold sane3
  rw [hp.root_eq]
  exact ⟨fun ⟨rid, hr, hd⟩ => ⟨rid, hr, (hp.dict_eq rid).symm.trans hd⟩,
    fun ⟨rid, hr, hd⟩ => ⟨rid, hr, (hp.dict_eq rid).trans hd⟩⟩

theorem removeMetadataBody_root_some {g g' : Graph} (h : removeMetadataBody g = .ok g') :
    ∃ rid, g.root = some rid := by
  unfold removeMetadataBody at h
  cases hr : g.root with
  | none =>
    rw [show requireRoot g = .error () from by simp [requireRoot, hr]] at h
    cases h
  | some rid => exact ⟨rid, rfl⟩

theorem optimizeDocumentStructureBody_root_some {g g' : Graph} {o : Options}
    (h : optimizeDocumentStructureBody g o = .ok g') : ∃ rid, g.root = some rid := by
  unfold optimizeDocumentStructureBody at h
  cases hr : g.root with
  | none =>
    rw [show requireRoot g = .error () from by simp [requireRoot, hr]] at h
    cases h
  | some rid => exact ⟨rid, rfl⟩

theorem removeMetadata_pres (g : Graph) : Preserves g (removeMetadata g) := by
  unfold removeMetadata recover
  cases hb : removeMetadataBody g with
  | error e => exact Preserves.refl g
  | ok g' =>
    obtain ⟨rid, hr⟩ := removeMetadataBody_root_some hb
    exact (removeMetadataBody_post hr hb).1

theorem optimizeContentStreams_pres (g : Graph) (o : Options) :
    Preserves g (optimizeContentStreams g o) ∧
      (optimizeContentStreams g o).info = g.info := by
  unfold optimizeContentStreams recover
  cases hb : optimizeContentStreamsBody g o with
  | error e => exact ⟨Preserves.refl g, rfl⟩
  | ok g' =>
    obtain ⟨hp, hi, _, _⟩ := optimizeContentStreamsBody_post hb
    exact ⟨hp, hi⟩

theorem optimizeDocumentStructure_pres (g : Graph) (o : Options) :
    Preserves g (optimizeDocumentStructure g o) ∧
      (optimizeDocumentStructure g o).info = g.info := by
  unfold optimizeDocumentStructure recover
  cases hb : optimizeDocumentStructureBody g o with
  | error e => exact ⟨Preserves.refl g, rfl⟩
  | ok g' =>
    obtain ⟨rid, hr⟩ := optimizeDocumentStructureBody_root_some hb
    obtain ⟨hp, hi, _, _⟩ := optimizeDocumentStructureBody_post hr hb
    exact ⟨hp, hi⟩

theorem removeMetadata_fix1 (g : Graph) :
    removeMetadata (removeMetadata g) = removeMetadata g := by
  cases hb : removeMetadataBody g with
  | error e =>
    have hrm : removeMetadata g = g := by unfold removeMetadata recover; rw [hb]
    rw [hrm]
    exact hrm
  | ok g' =>
    have hrm : removeMetadata g = g' := by unfold removeMetadata recover; rw [hb]
    rw [hrm]
    obtain ⟨rid, hr⟩ := removeMetadataBody_root_some hb
    obtain ⟨pres, hinfo, h1, h2, h3, h4, h5, hs⟩ := removeMetadataBody_post hr hb
    obtain ⟨rid2, hr2, hd2, hpd2⟩ := hs
    have hrid : rid2 = rid := by
      rw [hr] at hr2
      exact (Option.some_inj.mp hr2).symm
    subst hrid
    have hident : removeMetadataBody g' = .ok g' := by
      apply removeMetadataBody_ident (pres.root_eq.trans hr)
      · exact (pres.dict_eq rid2).trans hd2
      · intro p hp
        rw [pres.pageRefs_eq] at hp
        exact (pres.dict_eq p).trans (hpd2 p hp)
      · exact hinfo
      · exact h1
      · exact h2
      · exact h3
      · exact h4
      · intro p hp
        rw [pres.pageRefs_eq] at hp
        exact h5 p hp
    unfold removeMetadata recover
    rw [hident]

theorem removeMetadata_fix_of_pres {x y : Graph} (hp : Preserves x y)
    (hinfo : y.info = x.info) (hfix : removeMetadata x = x) :
    removeMetadata y = y := by
  cases hb : removeMetadataBody x with
  | error e =>
    have hns : ¬ sane1 x := by
      intro hs
      obtain ⟨g', h'⟩ := removeMetadataBody_ok_of_sane1 hs
      rw [h'] at hb
      cases hb
    have hnsy : ¬ sane1 y := fun hs => hns ((sane1_congr hp).mp hs)
    unfold removeMetadata recover
    rw [removeMetadataBody_err_of_not_sane1 hnsy]
  | ok x' =>
    have hx' : x' = x := by
      have hw : removeMetadata x = x' := by unfold removeMetadata recover; rw [hb]
      rw [hfix] at hw
      exact hw.symm
    subst hx'
    obtain ⟨rid, hr⟩ := removeMetadataBody_root_some hb
    obtain ⟨_, hinfo1, h1, h2, h3, h4, h5, hs⟩ := removeMetadataBody_post hr hb
    obtain ⟨rid2, hr2, hd2, hpd2⟩ := hs
    have hrid : rid2 = rid := by
      rw [hr] at hr2
      exact (Option.some_inj.mp hr2).symm
    subst hrid
    have hident : removeMetadataBody y = .ok y := by
      apply removeMetadataBody_ident (hp.root_eq.trans hr)
      · exact (hp.dict_eq rid2).trans hd2
      · intro p hpq
        rw [hp.pageRefs_eq] at hpq
        exact (hp.dict_eq p).trans (hpd2 p hpq)
      · rw [hinfo, hinfo1]
      · exact hp.abs_mono _ _ h1
      · exact hp.abs_mono _ _ h2
      · exact hp.abs_mono _ _ h3
      · exact fun k hk => hp.abs_mono _ _ (h4 k hk)
      · intro p hpq
        rw [hp.pageRefs_eq] at hpq
        exact hp.abs_mono _ _ (h5 p hpq)
    unfold removeMetadata recover
    rw [hident]

theorem optimizeContentStreams_fix2 (g : Graph) (o : Options) :
    optimizeContentStreams (optimizeContentStreams g o) o
      = optimizeContentStreams g o := by
  cases hb : optimizeContentStreamsBody g o with
  | error e =>
    have hw : optimizeContentStreams g o = g := by
      unfold optimizeContentStreams recover; rw [hb]
    rw [hw]
    exact hw
  | ok g' =>
    have hw : optimizeContentStreams g o = g' := by
      unfold optimizeContentStreams recover; rw [hb]
    rw [hw]
    obtain ⟨pres, hinfo, hs2, hpr⟩ := optimizeContentStreamsBody_post hb
    have hident : optimizeContentStreamsBody g' o = .ok g' := by
      apply optimizeContentStreamsBody_ident
      intro p hpq
      rw [pres.pageRefs_eq] at hpq
      exact ⟨(pageOkCS_congr pres o p).mpr (hs2 p hpq), hpr p hpq⟩
    unfold optimizeContentStreams recover
    rw [hident]

theorem optimizeContentStreams_fix_of_pres {x y : Graph} {o : Options}
    (hp : Preserves x y) (hfix : optimizeContentStreams x o = x) :
    optimizeContentStreams y o = y := by
  cases hb : optimizeContentStreamsBody x o with
  | error e =>
    have hns : ¬ sane2 x o := by
      intro hs
      obtain ⟨g', h'⟩ := optimizeContentStreamsBody_ok_of hs
      rw [h'] at hb
      cases hb
    have hnsy : ¬ sane2 y o := fun hs => hns ((sane2_congr hp o).mp hs)
    unfold optimizeContentStreams recover
    rw [optimizeContentStreamsBody_err_of hnsy]
  | ok x' =>
    have hx' : x' = x := by
      have hw : optimizeContentStreams x o = x' := by
        unfold optimizeContentStreams recover; rw [hb]
      rw [hfix] at hw
      exact hw.symm
    subst hx'
    obtain ⟨_, _, hs2, hpr⟩ := optimizeContentStreamsBody_post hb
    have hident : optimizeContentStreamsBody y o = .ok y := by
      apply optimizeContentStreamsBody_ident
      intro p hpq
      rw [hp.pageRefs_eq] at hpq
      exact ⟨(pageOkCS_congr hp o p).mpr (hs2 p hpq), pagePrunedCS_mono hp (hpr p hpq)⟩
    unfold optimizeContentStreams recover
    rw [hident]

theorem optimizeDocumentStructure_fix3 (g : Graph) (o : Options) :
    optimizeDocumentStructure (optimizeDocumentStructure g o) o
      = optimizeDocumentStructure g o := by
  cases hb : optimizeDocumentStructureBody g o with
  | error e =>
    have hw : optimizeDocumentStructure g o = g := by
      unfold optimizeDocumentStructure recover; rw [hb]
    rw [hw]
    exact hw
  | ok g' =>
    have hw : optimizeDocumentStructure g o = g' := by
      unfold optimizeDocumentStructure recover; rw [hb]
    rw [hw]
    obtain ⟨rid, hr⟩ := optimizeDocumentStructureBody_root_some hb
    obtain ⟨pres, hinfo, hcat, hd⟩ := optimizeDocumentStructureBody_post hr hb
    have hident : optimizeDocumentStructureBody g' o = .ok g' := by
      apply optimizeDocumentStructureBody_ident (pres.root_eq.trans hr)
      · exact (pres.dict_eq rid).trans hd
      · exact hcat
    unfold optimizeDocumentStructure recover
    rw [hident]

theorem fullPrune_idem_aux (g : Graph) (o : Options) :
    removeMetadata (fullPrune g o) = fullPrune g o ∧
      optimizeContentStreams (fullPrune g o) o = fullPrune g o ∧
      optimizeDocumentStructure (fullPrune g o) o = fullPrune g o := by
  unfold fullPrune
  refine ⟨?_, ?_, ?_⟩
  · apply removeMetadata_fix_of_pres
      ((optimizeContentStreams_pres (removeMetadata g) o).1.trans
        (optimizeDocumentStructure_pres _ o).1)
      (((optimizeDocumentStructure_pres _ o).2).trans
        (optimizeContentStreams_pres (removeMetadata g) o).2)
      (removeMetadata_fix1 g)
  · apply optimizeContentStreams_fix_of_pres
      (optimizeDocumentStructure_pres _ o).1
      (optimizeContentStreams_fix2 (removeMetadata g) o)
  · exact optimizeDocumentStructure_fix3 _ o

theorem fullPrune_idem_eq (g : Graph) (o : Options) :
    fullPrune (fullPrune g o) o = fullPrune g o := by
  obtain ⟨h1, h2, h3⟩ := fullPrune_idem_aux g o
  show optimizeDocumentStructure
    (optimizeContentStreams (removeMetadata (fullPrune g o)) o) o = fullPrune g o
  rw [h1, h2, h3]

theorem pipelineGraph_eq_fullPrune (g : Graph) (o : Options) :
    pipelineGraph g o = fullPrune g o := by
  unfold pipelineGraph fullPrune
  rw [processImages_id]

theorem pruneRun_second_pass {g : Graph} {o : Options}
    (h : isErrorE (pruneRun g o) = false) :
    pruneRun (fullPrune g o) o = .ok (fullPrune g o) := by
  unfold pruneRun at h ⊢
  cases h1 : removeMetadataBody g with
  | error e => rw [h1] at h; simp [isErrorE] at h
  | ok g1 =>
    rw [h1] at h
    simp only at h
    cases h2 : optimizeContentStreamsBody g1 o with
    | error e => rw [h2] at h; simp [isErrorE] at h
    | ok g2 =>
      rw [h2] at h
      simp only at h
      cases h3 : optimizeDocumentStructureBody g2 o with
      | error e => rw [h3] at h; simp [isErrorE] at h
      | ok g3 =>
        have hs1 : removeMetadata g = g1 := by
          unfold removeMetadata recover; rw [h1]
        have hs2 : optimizeContentStreams g1 o = g2 := by
          unfold optimizeContentStreams recover; rw [h2]
        have hs3 : optimizeDocumentStructure g2 o = g3 := by
          unfold optimizeDocumentStructure recover; rw [h3]
        have hF : fullPrune g o = g3 := by
          unfold fullPrune; rw [hs1, hs2, hs3]
        obtain ⟨f1, f2, f3⟩ := fullPrune_idem_aux g o
        rw [hF] at f1 f2 f3
        obtain ⟨rid, hroot⟩ := removeMetadataBody_root_some h1
        have post1 := removeMetadataBody_post hroot h1
        have post2 := optimizeContentStreamsBody_post h2
        obtain ⟨rid2, hroot2⟩ := optimizeDocumentStructureBody_root_some h3
        have post3 := optimizeDocumentStructureBody_post hroot2 h3
        have pres13 : Preserves g1 g3 := post2.1.trans post3.1
        have presF : Preserves g g3 := post1.1.trans pres13
        have hb1 : removeMetadataBody g3 = .ok g3 := by
          have hsg3 : sane1 g3 :=
            (sane1_congr presF).mpr post1.2.2.2.2.2.2.2
          obtain ⟨y1, hy1⟩ := removeMetadataBody_ok_of_sane1 hsg3
          have hw : removeMetadata g3 = y1 := by
            unfold removeMetadata recover; rw [hy1]
          rw [f1] at hw
          rw [hy1, ← hw]
        have hb2 : optimizeContentStreamsBody g3 o = .ok g3 := by
          have hsg3 : sane2 g3 o :=
            (sane2_congr pres13 o).mpr post2.2.2.1
          obtain ⟨y2, hy2⟩ := optimizeContentStreamsBody_ok_of hsg3
          have hw : optimizeContentStreams g3 o = y2 := by
            unfold optimizeContentStreams recover; rw [hy2]
          rw [f2] at hw
          rw [hy2, ← hw]
        have hb3 : optimizeDocumentStructureBody g3 o = .ok g3 := by
          have hsg3 : sane3 g3 :=
            (sane3_congr post3.1).mpr ⟨rid2, hroot2, post3.2.2.2⟩
          obtain ⟨y3, hy3⟩ := optimizeDocumentStructureBody_ok_of hsg3
          have hw : optimizeDocumentStructure g3 o = y3 := by
            unfold optimizeDocumentStructure recover; rw [hy3]
          rw [f3] at hw
          rw [hy3, ← hw]
        rw [hF, hb1]
        simp only
        rw [hb2]
        simp only
        rw [hb3]

/-- C1: the Image Transform Policy is a pure function of width, height,
compression level and quality (the preserve-quality flag plays no role):
for every image the computed scale factor is the base factor (low: 1 if
quality > 80 else 0.9; medium: 0.8 if quality > 60 else 0.7; high: 0.6
if quality > 40 else 0.5) multiplied by 0.8 when width > 1000 or
height > 1000, and further by 0.7 when the level is high and quality is
below 30; an image with width < 100 or height < 100 is left entirely
untouched regardless of options; the factor at width 2000, height 1500,
level high, quality 25 is 0.28, and at level low, quality 95 (within the
500×500 example dimensions) it is 1. -/
theorem C1_image_transform_policy :
    (∀ (w h : ℚ) (o : Options),
        downsampleFactor (.num w) (.num h) o =
          (match o.compressionLevel with
            | .low => if o.quality > 80 then (1 : ℚ) else 0.9
            | .medium => if o.quality > 60 then (0.8 : ℚ) else 0.7
            | .high => if o.quality > 40 then (0.6 : ℚ) else 0.5)
          * (if 1000 < w ∨ 1000 < h then 0.8 else 1)
          * (if o.compressionLevel = .high ∧ o.quality < 30 then 0.7 else 1))
    ∧ (∀ (q : ℕ) (lvl : CompressionLevel) (b1 b2 : Bool) (w h : PDFValue),
        downsampleFactor w h ⟨q, lvl, b1⟩ = downsampleFactor w h ⟨q, lvl, b2⟩)
    ∧ (∀ (img : PDFDict) (o : Options) (w h : ℚ),
        alookup img "Width" = some (.num w) → alookup img "Height" = some (.num h) →
        w < 100 ∨ h < 100 → processImageXObject img o = img)
    ∧ downsampleFactor (.num 2000) (.num 1500) ⟨25, .high, false⟩ = 0.28
    ∧ downsampleFactor (.num 500) (.num 500) ⟨95, .low, true⟩ = 1 := by
  refine ⟨?_, ?_, ?_, ?_, ?_⟩
  · intro w h o
    rcases o with ⟨q, lvl, pq⟩
    unfold downsampleFactor pdfGt
    cases lvl <;>
      by_cases h1 : (1000 : ℚ) < w <;> by_cases h2 : (1000 : ℚ) < h <;>
        by_cases h3 : q < 30 <;>
          simp [h1, h2, h3, mul_one, mul_assoc]
  · intro q lvl b1 b2 w h
    rfl
  · intro img o w h hw hh hlt
    unfold processImageXObject
    rw [if_neg (by simp [hw, hh])]
    simp only [hw, hh]
    rw [if_pos]
    simp only [Option.getD_some, pdfLt]
    rcases hlt with hlt | hlt
    · simp [hlt]
    · simp [hlt]
  · norm_num [downsampleFactor, pdfGt]
  · norm_num [downsampleFactor, pdfGt]

/-- Witness for C1: the small-image clause at the concrete 50×60 image
with high-compression options, plus the 0.28 example. -/
theorem C1_image_transform_policy_witness :
    (alookup smallImage "Width" = some (.num 50) ∧
      alookup smallImage "Height" = some (.num 60) ∧
      ((50 : ℚ) < 100 ∨ (60 : ℚ) < 100) ∧
      processImageXObject smallImage sampleOptions = smallImage) ∧
    downsampleFactor (.num 2000) (.num 1500) ⟨25, .high, false⟩ = 0.28 :=
  ⟨⟨rfl, rfl, Or.inl (by norm_num),
    C1_image_transform_policy.2.2.1 smallImage sampleOptions 50 60 rfl rfl
      (Or.inl (by norm_num))⟩,
   C1_image_transform_policy.2.2.2.1⟩

/-- C4 fails on the code: `processImageXObject` computes the downsample
factor but re-encodes nothing.  At width 2000, height 1500, level
medium, quality 70 the factor is 0.64, so the claim requires the image
payload (or at least its Width declaration) to change to
round(2000·0.64) = 1280 — the image is DCT-encoded, not a wavelet codec,
so the JPXDecode exception does not apply — yet the image dictionary is
returned entirely unchanged, its Width still 2000. -/
theorem C4_no_reencode_cx :
    processImageXObject sampleImage mediumOptions = sampleImage
    ∧ alookup sampleImage "Width" = some (.num 2000)
    ∧ alookup sampleImage "Filter" = some (.name "DCTDecode")
    ∧ downsampleFactor (.num 2000) (.num 1500) mediumOptions = 0.64
    ∧ round ((2000 : ℚ) * 0.64) = 1280
    ∧ (1280 : ℤ) ≠ 2000 := by
  refine ⟨processImageXObject_eq _ _, rfl, rfl, ?_, ?_, ?_⟩
  · norm_num [downsampleFactor, pdfGt, mediumOptions]
  · norm_num
  · decide

/-- C4 amended: for every image XObject and every options value the
image processing stage computes the scale factor and then leaves the
image — dictionary and stream alike — completely unchanged (pdf-lib
cannot rewrite image payloads; the JPXDecode/high branch is an explicit
placeholder), so the whole `processImages` stage is the identity on the
document graph. -/
theorem C4_image_stage_never_rewrites :
    ∀ (img : PDFDict) (o : Options) (g : Graph),
      processImageXObject img o = img ∧ processImages g o = g :=
  fun img o g => ⟨processImageXObject_eq img o, processImages_id g o⟩

/-- C9: an image XObject whose dictionary lacks `Width` or lacks
`Height` is returned unmodified, and the surrounding entry handler
completes without raising an error. -/
theorem C9_missing_dims_untouched :
    ∀ (img : PDFDict) (o : Options),
      (alookup img "Width" = none ∨ alookup img "Height" = none) →
      processImageXObject img o = img ∧
      (∀ (g : Graph) (objId : ℕ) (e : String × PDFValue),
        e.2 = .ref objId → dictAt g objId = some img →
        processImageEntry o g e = .ok g) := by
  intro img o hmiss
  constructor
  · exact processImageXObject_eq img o
  · intro g objId e he hd
    unfold processImageEntry
    rw [he]
    simp only [refId]
    rw [hd]
    simp only
    by_cases hs : isImageSubtype (alookup img "Subtype") = true
    · rw [if_pos hs, processImageXObject_eq]
      rw [setObj_self g objId _ (dictAt_eq_some.mp hd)]
    · rw [if_neg hs]

/-- Witness for C9 at the concrete image dictionary lacking `Width`. -/
theorem C9_missing_dims_untouched_witness :
    (alookup noWidthImage "Width" = none ∨ alookup noWidthImage "Height" = none) ∧
    processImageXObject noWidthImage sampleOptions = noWidthImage :=
  ⟨Or.inl rfl,
   (C9_missing_dims_untouched noWidthImage sampleOptions (Or.inl rfl)).1⟩

/-- C10: when a page's `Resources` entry is a direct (inline) object
rather than an indirect reference — or when the resolved resources'
`XObject` entry is — `processImages` skips that page entirely: the page
handler returns the graph unchanged and raises no error, so nothing
reachable only through the inline entry is inspected or transformed. -/
theorem C10_inline_resources_skipped :
    (∀ (o : Options) (g : Graph) (pr : ℕ) (pd : PDFDict) (v : PDFValue),
      dictAt g pr = some pd → alookup pd "Resources" = some v → refId v = none →
      processImagesPage o g pr = .ok g)
    ∧ (∀ (o : Options) (g : Graph) (pr resId : ℕ) (pd rd : PDFDict) (xv : PDFValue),
      dictAt g pr = some pd → alookup pd "Resources" = some (.ref resId) →
      dictAt g resId = some rd → alookup rd "XObject" = some xv → refId xv = none →
      processImagesPage o g pr = .ok g) := by
  constructor
  · intro o g pr pd v hpd hres hv
    unfold processImagesPage
    rw [hpd]
    simp only
    rw [hres]
    simp only [Option.bind]
    rw [hv]
  · intro o g pr resId pd rd xv hpd hres hrd hx hxv
    unfold processImagesPage
    rw [hpd]
    simp only
    rw [hres]
    simp only [Option.bind, refId]
    rw [hrd]
    simp only
    rw [hx]
    simp only [Option.bind]
    rw [hxv]

/-- Witness for C10 at the concrete two-page graph: page 1 has inline
resources, page 2 has indirect resources with an inline `XObject` map. -/
theorem C10_inline_resources_skipped_witness :
    processImagesPage sampleOptions inlineResGraph 1 = .ok inlineResGraph ∧
    processImagesPage sampleOptions inlineResGraph 2 = .ok inlineResGraph :=
  ⟨C10_inline_resources_skipped.1 sampleOptions inlineResGraph 1
      [("Type", .name "Page"),
       ("Resources", .dict [("XObject", .dict [("Im0", .ref 5)])])]
      (.dict [("XObject", .dict [("Im0", .ref 5)])]) rfl rfl rfl,
   C10_inline_resources_skipped.2 sampleOptions inlineResGraph 2 3
      [("Type", .name "Page"), ("Resources", .ref 3)]
      [("XObject", .dict [("Im1", .ref 5)])]
      (.dict [("Im1", .ref 5)]) rfl rfl rfl rfl rfl⟩

/-- C2: a failure inside any interior stage (StripMetadata,
OptimizeContentStreams, ProcessImages, OptimizeStructure) is caught by
that stage's local handler and the pipeline proceeds to the next stage
and to Save; the terminal message is the error payload exactly when the
Load step or the Save step failed — a stage error never surfaces to the
caller. -/
theorem C2_stage_errors_never_surface :
    ∀ (loadResult : Except String Graph) (o : Options) (sz : ℕ)
      (save : Graph → Except String ℕ),
      (compressPipeline loadResult o sz save).2.isError = true
        ↔ (isErrorE loadResult = true ∨
            ∃ g, loadResult = .ok g ∧ isErrorE (save (pipelineGraph g o)) = true) := by
  intro loadResult o sz save
  cases loadResult with
  | error e =>
    constructor
    · intro _
      exact Or.inl rfl
    · intro _
      rfl
  | ok g =>
    have heq0 : compressPipeline (.ok g) o sz save =
        match save (pipelineGraph g o) with
        | .error e => ([5, 10, 15, 25, 40, 70, 85], .error (errorMessageOf e))
        | .ok c =>
          ([5, 10, 15, 25, 40, 70, 85, 100],
            .complete sz c (compressionRatioQ sz c)) := rfl
    rw [heq0]
    cases hsave : save (pipelineGraph g o) with
    | error e =>
      constructor
      · intro _
        exact Or.inr ⟨g, rfl, by rw [hsave]; rfl⟩
      · intro _
        rfl
    | ok c =>
      constructor
      · intro habs
        simp [Outcome.isError] at habs
      · rintro (habs | ⟨g', hg', hserr⟩)
        · simp [isErrorE] at habs
        · have : g' = g := by cases hg'; rfl
          subst this
          rw [hsave] at hserr
          simp [isErrorE] at hserr

/-- C3: for every request, whatever the compression level and the
preserve-quality flag, a successful metadata-stripping pass leaves the
pipeline's final graph with none of the catalog entries Metadata,
MarkInfo, Outlines, PageLabels, ViewerPreferences, PageLayout, PageMode,
Threads, OpenAction; with no `Names` entry at all (the code removes the
whole `Names` tree, so in particular no `EmbeddedFiles` entry is
reachable under it); and with the trailer's document information
reference cleared.  Every one of these removals is a guarded no-op when
the entry is absent. -/
theorem C3_pruning_removes_catalog_entries :
    ∀ (g : Graph) (o : Options) (rid : ℕ),
      g.root = some rid →
      isErrorE (removeMetadataBody g) = false →
      (∀ k ∈ (["Metadata", "MarkInfo", "Outlines", "PageLabels", "ViewerPreferences",
          "PageLayout", "PageMode", "Threads", "OpenAction"] : List String),
          keyAt (pipelineGraph g o) rid k = none) ∧
      keyAt (pipelineGraph g o) rid "Names" = none ∧
      (∀ nd, keyAt (pipelineGraph g o) rid "Names" = some (.dict nd) →
        alookup nd "EmbeddedFiles" = none) ∧
      (pipelineGraph g o).info = none := by
  intro g o rid hr herr
  cases hb : removeMetadataBody g with
  | error e => rw [hb] at herr; simp [isErrorE] at herr
  | ok g1 =>
    obtain ⟨pres1, hinfo1, h1, h2, h3, h4, h5, _⟩ := removeMetadataBody_post hr hb
    have hs1 : removeMetadata g = g1 := by
      unfold removeMetadata recover; rw [hb]
    have hpg : pipelineGraph g o
        = optimizeDocumentStructure (optimizeContentStreams g1 o) o := by
      unfold pipelineGraph
      rw [hs1, processImages_id]
    have pres23 : Preserves g1
        (optimizeDocumentStructure (optimizeContentStreams g1 o) o) :=
      (optimizeContentStreams_pres g1 o).1.trans
        (optimizeDocumentStructure_pres _ o).1
    have hinfo : (optimizeDocumentStructure (optimizeContentStreams g1 o) o).info
        = none := by
      rw [(optimizeDocumentStructure_pres _ o).2,
        (optimizeContentStreams_pres g1 o).2, hinfo1]
    have hnames : keyAt (optimizeDocumentStructure (optimizeContentStreams g1 o) o)
        rid "Names" = none :=
      pres23.abs_mono _ _ (h4 "Names" (by simp [unnecessaryEntries]))
    rw [hpg]
    refine ⟨?_, hnames, ?_, hinfo⟩
    · intro k hk
      fin_cases hk
      · exact pres23.abs_mono _ _ h1
      · exact pres23.abs_mono _ _ h2
      · exact pres23.abs_mono _ _ h3
      · exact pres23.abs_mono _ _ (h4 "PageLabels" (by simp [unnecessaryEntries]))
      · exact pres23.abs_mono _ _ (h4 "ViewerPreferences" (by simp [unnecessaryEntries]))
      · exact pres23.abs_mono _ _ (h4 "PageLayout" (by simp [unnecessaryEntries]))
      · exact pres23.abs_mono _ _ (h4 "PageMode" (by simp [unnecessaryEntries]))
      · exact pres23.abs_mono _ _ (h4 "Threads" (by simp [unnecessaryEntries]))
      · exact pres23.abs_mono _ _ (h4 "OpenAction" (by simp [unnecessaryEntries]))
    · intro nd hnd
      rw [hnames] at hnd
      cases hnd

/-- Witness for C3 at the concrete sample document. -/
theorem C3_pruning_removes_catalog_entries_witness :
    sampleGraph.root = some 1 ∧
    isErrorE (removeMetadataBody sampleGraph) = false ∧
    ((∀ k ∈ (["Metadata", "MarkInfo", "Outlines", "PageLabels", "ViewerPreferences",
        "PageLayout", "PageMode", "Threads", "OpenAction"] : List String),
        keyAt (pipelineGraph sampleGraph sampleOptions) 1 k = none) ∧
      keyAt (pipelineGraph sampleGraph sampleOptions) 1 "Names" = none ∧
      (∀ nd, keyAt (pipelineGraph sampleGraph sampleOptions) 1 "Names"
          = some (.dict nd) → alookup nd "EmbeddedFiles" = none) ∧
      (pipelineGraph sampleGraph sampleOptions).info = none) :=
  ⟨rfl, rfl,
    C3_pruning_removes_catalog_entries sampleGraph sampleOptions 1 rfl rfl⟩

/-- C5: for every request and every compression level, a successful
metadata-stripping pass removes the `Thumb` entry from every page node
dictionary (a guarded no-op for pages without one), and no later stage
reintroduces it. -/
theorem C5_thumb_removed_every_page :
    ∀ (g : Graph) (o : Options) (p : ℕ),
      p ∈ g.pageRefs →
      isErrorE (removeMetadataBody g) = false →
      keyAt (pipelineGraph g o) p "Thumb" = none := by
  intro g o p hp herr
  cases hb : removeMetadataBody g with
  | error e => rw [hb] at herr; simp [isErrorE] at herr
  | ok g1 =>
    obtain ⟨rid, hr⟩ := removeMetadataBody_root_some hb
    obtain ⟨pres1, hinfo1, _, _, _, _, h5, _⟩ := removeMetadataBody_post hr hb
    have hs1 : removeMetadata g = g1 := by
      unfold removeMetadata recover; rw [hb]
    have hpg : pipelineGraph g o
        = optimizeDocumentStructure (optimizeContentStreams g1 o) o := by
      unfold pipelineGraph
      rw [hs1, processImages_id]
    have pres23 : Preserves g1
        (optimizeDocumentStructure (optimizeContentStreams g1 o) o) :=
      (optimizeContentStreams_pres g1 o).1.trans
        (optimizeDocumentStructure_pres _ o).1
    rw [hpg]
    exact pres23.abs_mono _ _ (h5 p hp)

/-- Witness for C5 at the concrete sample document (page 6, medium
compression). -/
theorem C5_thumb_removed_every_page_witness :
    (6 ∈ sampleGraph.pageRefs) ∧
    keyAt (pipelineGraph sampleGraph mediumOptions) 6 "Thumb" = none :=
  ⟨by simp [sampleGraph],
   C5_thumb_removed_every_page sampleGraph mediumOptions 6
     (by simp [sampleGraph]) rfl⟩

/-- C6: the full Pruning Engine policy is idempotent — applying the
three pruning stages twice yields the same graph as applying them once
for every graph and options; an error-free first pass guarantees the
second pass raises no error at all; and deleting an absent key from a
dictionary is a no-op, never an error. -/
theorem C6_pruning_idempotent :
    ∀ (g : Graph) (o : Options),
      fullPrune (fullPrune g o) o = fullPrune g o ∧
      (isErrorE (pruneRun g o) = false →
        pruneRun (fullPrune g o) o = .ok (fullPrune g o)) ∧
      (∀ (d : PDFDict) (k : String), alookup d k = none → delIfPresent d k = d) :=
  fun g o =>
    ⟨fullPrune_idem_eq g o, fun h => pruneRun_second_pass h,
     fun d k h => delIfPresent_absent d k h⟩

/-- Witness for C6 at the concrete sample document and an absent-key
deletion. -/
theorem C6_pruning_idempotent_witness :
    fullPrune (fullPrune sampleGraph sampleOptions) sampleOptions
      = fullPrune sampleGraph sampleOptions ∧
    pruneRun (fullPrune sampleGraph sampleOptions) sampleOptions
      = .ok (fullPrune sampleGraph sampleOptions) ∧
    delIfPresent [("Type", PDFValue.name "Page")] "Thumb"
      = [("Type", PDFValue.name "Page")] :=
  ⟨(C6_pruning_idempotent sampleGraph sampleOptions).1,
   (C6_pruning_idempotent sampleGraph sampleOptions).2.1 rfl,
   (C6_pruning_idempotent sampleGraph sampleOptions).2.2 _ "Thumb" rfl⟩

/-- C7: a successful request reports exactly
(originalSize − outputSize) / originalSize, negative whenever the output
is larger than a non-empty input, never clamped: 1,000,000 → 400,000
reports 0.6 and 1,000,000 → 1,050,000 reports −0.05. -/
theorem C7_ratio_reported_exactly :
    (∀ (o : Options) (sz : ℕ) (save : Graph → Except String ℕ) (g : Graph) (c : ℕ),
      save (pipelineGraph g o) = .ok c →
      (compressPipeline (.ok g) o sz save).2
        = .complete sz c (((sz : ℚ) - (c : ℚ)) / (sz : ℚ)))
    ∧ (∀ orig outp : ℕ, 0 < orig → orig < outp → compressionRatioQ orig outp < 0)
    ∧ compressionRatioQ 1000000 400000 = 0.6
    ∧ compressionRatioQ 1000000 1050000 = -0.05 := by
  refine ⟨?_, ?_, ?_, ?_⟩
  · intro o sz save g c hsave
    have heq0 : compressPipeline (.ok g) o sz save =
        match save (pipelineGraph g o) with
        | .error e => ([5, 10, 15, 25, 40, 70, 85], .error (errorMessageOf e))
        | .ok c =>
          ([5, 10, 15, 25, 40, 70, 85, 100],
            .complete sz c (compressionRatioQ sz c)) := rfl
    rw [heq0, hsave]
    rfl
  · intro orig outp h1 h2
    unfold compressionRatioQ
    apply div_neg_of_neg_of_pos
    · have : (orig : ℚ) < (outp : ℚ) := by exact_mod_cast h2
      linarith
    · exact_mod_cast h1
  · norm_num [compressionRatioQ]
  · norm_num [compressionRatioQ]

/-- Witness for C7: a concrete run reporting ratio 0.6, and a concrete
negative ratio. -/
theorem C7_ratio_reported_exactly_witness :
    (compressPipeline (.ok sampleGraph) sampleOptions 1000000
        (fun _ => .ok 400000)).2
      = .complete 1000000 400000 (((1000000 : ℚ) - (400000 : ℚ)) / (1000000 : ℚ)) ∧
    compressionRatioQ 1 2 < 0 :=
  ⟨C7_ratio_reported_exactly.1 sampleOptions 1000000 (fun _ => .ok 400000)
      sampleGraph 400000 rfl,
   C7_ratio_reported_exactly.2.1 1 2 (by decide) (by decide)⟩

/-- C8: the emitted progress sequence is monotonically non-decreasing on
every path; the terminal message is the success payload exactly when the
last emitted progress value is 100; a request that ends in error never
emits 100; and a successful request emits 100 exactly once. -/
theorem C8_progress_monotone_and_100 :
    ∀ (loadResult : Except String Graph) (o : Options) (sz : ℕ)
      (save : Graph → Except String ℕ),
      List.Chain' (· ≤ ·) (compressPipeline loadResult o sz save).1 ∧
      ((compressPipeline loadResult o sz save).2.isError = false ↔
        (compressPipeline loadResult o sz save).1.getLast? = some 100) ∧
      ((compressPipeline loadResult o sz save).2.isError = true →
        100 ∉ (compressPipeline loadResult o sz save).1) ∧
      ((compressPipeline loadResult o sz save).2.isError = false →
        (compressPipeline loadResult o sz save).1.count 100 = 1) := by
  intro loadResult o sz save
  cases loadResult with
  | error e =>
    refine ⟨?_, ?_, ?_, ?_⟩
    · show List.Chain' (· ≤ ·) [5]
      simp
    · show Outcome.isError (.error (errorMessageOf e)) = false
        ↔ List.getLast? [5] = some 100
      simp [Outcome.isError]
    · intro _
      show ¬ (100 ∈ [5])
      decide
    · intro h
      simp [compressPipeline, Outcome.isError] at h
  | ok g =>
    have heq0 : compressPipeline (.ok g) o sz save =
        match save (pipelineGraph g o) with
        | .error e => ([5, 10, 15, 25, 40, 70, 85], .error (errorMessageOf e))
        | .ok c =>
          ([5, 10, 15, 25, 40, 70, 85, 100],
            .complete sz c (compressionRatioQ sz c)) := rfl
    cases hsave : save (pipelineGraph g o) with
    | error e =>
      have heq1 : compressPipeline (.ok g) o sz save
          = ([5, 10, 15, 25, 40, 70, 85], .error (errorMessageOf e)) := by
        rw [heq0, hsave]
      rw [heq1]
      refine ⟨?_, ?_, ?_, ?_⟩
      · show List.Chain' (· ≤ ·) [5, 10, 15, 25, 40, 70, 85]
        norm_num [List.chain'_cons]
      · simp [Outcome.isError]
      · intro _
        show ¬ (100 ∈ [5, 10, 15, 25, 40, 70, 85])
        decide
      · intro h
        simp [Outcome.isError] at h
    | ok c =>
      have heq1 : compressPipeline (.ok g) o sz save
          = ([5, 10, 15, 25, 40, 70, 85, 100],
              .complete sz c (compressionRatioQ sz c)) := by
        rw [heq0, hsave]
      rw [heq1]
      refine ⟨?_, ?_, ?_, ?_⟩
      · show List.Chain' (· ≤ ·) [5, 10, 15, 25, 40, 70, 85, 100]
        norm_num [List.chain'_cons]
      · simp [Outcome.isError]
      · intro h
        simp [Outcome.isError] at h
      · intro _
        show List.count 100 [5, 10, 15, 25, 40, 70, 85, 100] = 1
        decide

/-- Witness for C8: the error-path and success-path hypotheses
discharged on concrete runs. -/
theorem C8_progress_monotone_and_100_witness :
    (100 ∉ (compressPipeline (Except.error "bad xref")
        sampleOptions 7 (fun _ => .ok 3)).1) ∧
    (compressPipeline (.ok sampleGraph) sampleOptions 1000
        (fun _ => .ok 700)).1.count 100 = 1 :=
  ⟨(C8_progress_monotone_and_100 (Except.error "bad xref") sampleOptions 7
      (fun _ => .ok 3)).2.2.1 rfl,
   (C8_progress_monotone_and_100 (.ok sampleGraph) sampleOptions 1000
      (fun _ => .ok 700)).2.2.2 rfl⟩

end PDFWorker
